import Mathlib

/-!
Verification development for the asyncwinrm WinRM client.

Shallow embeddings, translated from the Python sources:
  * registry path navigation            (src/asyncwinrm/registry.py)
  * WMI dictification                   (src/asyncwinrm/client/winrm.py, services.py)
  * shell operation guards              (src/asyncwinrm/shell.py)
  * the shell receive loop              (src/asyncwinrm/shell.py)
  * the enumeration pull/release loop   (src/asyncwinrm/client/wsman.py)
  * the request envelope builder        (src/asyncwinrm/client/wsman.py)
  * WinRM message encryption framing    (src/asyncwinrm/auth/encryption.py)

Byte strings are modelled as lists of natural numbers; Python built-in
behaviour (int(), str.split, bytes.replace, bytes.strip) is modelled
explicitly for the ASCII inputs these code paths handle.
-/

/-- Byte strings: lists of byte values. -/
abbrev Bytes := List Nat

/-- ASCII byte codes of a string literal. -/
def bstr (s : String) : Bytes := s.data.map Char.toNat

/-! ## Decimal digits: Python str(int) and int(str) -/

/-- Decimal digits of a natural number, most significant first (digit values 0..9). -/
def natDigits (n : Nat) : List Nat :=
  if _ : n < 10 then [n] else natDigits (n / 10) ++ [n % 10]
termination_by n
decreasing_by exact Nat.div_lt_self (by omega) (by omega)

/-- ASCII bytes of the decimal representation of a natural number. -/
def natDecimalBytes (n : Nat) : Bytes := (natDigits n).map (fun d => 48 + d)

/-- The character of a single decimal digit value. -/
def digitChar (d : Nat) : Char :=
  match d with
  | 0 => '0' | 1 => '1' | 2 => '2' | 3 => '3' | 4 => '4'
  | 5 => '5' | 6 => '6' | 7 => '7' | 8 => '8' | _ => '9'

/-- Python str(n) for a natural number. -/
def pyStrNat (n : Nat) : String := String.mk ((natDigits n).map digitChar)

/-- Python str(k) for an integer. -/
def pyStrInt (k : Int) : String :=
  if k < 0 then "-" ++ pyStrNat k.natAbs else pyStrNat k.natAbs

/-- Value of an ASCII decimal digit byte, if it is one. -/
def digitValB (b : Nat) : Option Nat :=
  if 48 ≤ b ∧ b ≤ 57 then some (b - 48) else Option.none

/-- Continues parsing a Python integer literal after the first digit:
digits, with single underscores allowed between digits (CPython grammar). -/
def parseDigitsRest (acc : Nat) : Bytes → Option Nat
  | [] => some acc
  | b :: rest =>
    if b = 95 then
      match rest with
      | [] => Option.none
      | d :: rest2 =>
        match digitValB d with
        | some v => parseDigitsRest (acc * 10 + v) rest2
        | Option.none => Option.none
    else
      match digitValB b with
      | some v => parseDigitsRest (acc * 10 + v) rest
      | Option.none => Option.none

/-- Parses a nonempty run of decimal digits (underscore separators allowed
after the first digit, as Python int() accepts). -/
def parseDigitsB : Bytes → Option Nat
  | [] => Option.none
  | b :: rest =>
    match digitValB b with
    | some v => parseDigitsRest v rest
    | Option.none => Option.none

/-- ASCII whitespace recognised by Python str.strip / int(): tab, LF, VT, FF, CR, space. -/
def isPyWsB (b : Nat) : Bool :=
  b == 9 || b == 10 || b == 11 || b == 12 || b == 13 || b == 32

/-- Python bytes.strip() / str.strip() on ASCII whitespace. -/
def pyStripB (xs : Bytes) : Bytes :=
  ((xs.dropWhile isPyWsB).reverse.dropWhile isPyWsB).reverse

/-- Python int() applied to an ASCII byte string: optional surrounding
whitespace, optional sign, then digits with optional underscore separators.
(Non-ASCII digit forms accepted by CPython are outside this model.) -/
def pyIntB (xs : Bytes) : Option Int :=
  match pyStripB xs with
  | [] => Option.none
  | b :: rest =>
    if b = 43 then (parseDigitsB rest).map Int.ofNat
    else if b = 45 then (parseDigitsB rest).map (fun m => -(m : Int))
    else (parseDigitsB (b :: rest)).map Int.ofNat

/-- Python int() applied to a string. -/
def pyInt (s : String) : Option Int := pyIntB (bstr s)

/-! ## Registry path navigation (registry.py) -/

/-- Registry hive handles (class Tree). -/
def treeClassesRoot : Nat := 0x80000000
def treeCurrentUser : Nat := 0x80000001
def treeLocalMachine : Nat := 0x80000002
def treeUsers : Nat := 0x80000003
def treeCurrentConfig : Nat := 0x80000005

/-- A RegistryKey accessor: hive handle and subpath (registry.py, RegistryKey).
The owning Registry object carries no data relevant here. -/
structure RegistryKey where
  tree : Nat
  path : String
deriving DecidableEq, Repr

/-- RegistryKey._child_path: backslash join with empty segments absorbed. -/
def RegistryKey.childPath (k : RegistryKey) (subkey : String) : String :=
  if k.path = "" then subkey
  else if subkey = "" then k.path
  else k.path ++ "\\" ++ subkey

/-- RegistryKey.key: child accessor construction. -/
def RegistryKey.key (k : RegistryKey) (path : String) : RegistryKey :=
  { tree := k.tree, path := k.childPath path }

/-- A RegistryTree accessor (registry.py, RegistryTree). -/
structure RegistryTree where
  tree : Nat
deriving DecidableEq, Repr

/-- RegistryTree.key: builds a RegistryKey directly from the given path. -/
def RegistryTree.key (t : RegistryTree) (path : String) : RegistryKey :=
  { tree := t.tree, path := path }

/-- Backslash-join of path segments with empty segments absorbed: the
specification's description of child-path construction. -/
def joinSegments (segs : List String) : String :=
  (segs.filter (fun s => s ≠ "")).foldl
    (fun acc s => if acc = "" then s else acc ++ "\\" ++ s) ""

/-! ## WMI dictification (client/winrm.py and services.py) -/

/-- Values appearing in the dictified form of a WMI response element. -/
inductive PyVal where
  | pyNone
  | pyBool (b : Bool)
  | pyInt (n : Int)
  | pyStr (s : String)
  | pyList (xs : List PyVal)

/-- A child element of a WMI response element, as dictification sees it:
local name, the xsi:nil="true" marker, and the text content. -/
structure XChild where
  name : String
  nil : Bool
  text : Option String
deriving Repr

/-- _dictify_coerce (client/winrm.py): text to typed value coercion.
The integer branch is Python int(text) under try/suppress ValueError. -/
def dictifyCoerce (text : Option String) : PyVal :=
  match text with
  | Option.none => PyVal.pyNone
  | some t =>
    if t = "false" then PyVal.pyBool false
    else if t = "true" then PyVal.pyBool true
    else
      match pyInt t with
      | some n => PyVal.pyInt n
      | Option.none => PyVal.pyStr t

/-- _coerce_wmi_text (services.py): same coercion, written there with an
explicit try/except ValueError around int(text). -/
def coerceWmiText (text : Option String) : PyVal :=
  match text with
  | Option.none => PyVal.pyNone
  | some t =>
    if t = "false" then PyVal.pyBool false
    else if t = "true" then PyVal.pyBool true
    else
      match pyInt t with
      | some n => PyVal.pyInt n
      | Option.none => PyVal.pyStr t

/-- Insertion-ordered dictionary, as Python dict behaves for these functions. -/
abbrev PyDict := List (String × PyVal)

/-- result[name] = v on a Python dict: replaces the entry in place if the key
is present (keys are unique, so the first match is the only one), appends at
the end otherwise. -/
def dictSet : PyDict → String → PyVal → PyDict
  | [], k, v => [(k, v)]
  | p :: m, k, v => if p.1 = k then (k, v) :: m else p :: dictSet m k v

/-- result.get(name) on a Python dict. -/
def dictGet (m : PyDict) (k : String) : Option PyVal :=
  (m.find? (fun p => p.1 == k)).map Prod.snd

/-- The value dictify stores for one child element: None under xsi:nil="true",
otherwise the coerced text. -/
def dictifyChildVal (el : XChild) : PyVal :=
  if el.nil then PyVal.pyNone else dictifyCoerce el.text

/-- dictify (client/winrm.py): maps each child local name to its coerced
value; a repeated name overwrites the earlier entry. -/
def dictify (children : List XChild) : PyDict :=
  children.foldl (fun r el => dictSet r el.name (dictifyChildVal el)) []

/-- The value _parse_cim_element stores for one child element. -/
def cimChildVal (el : XChild) : PyVal :=
  if el.nil then PyVal.pyNone else coerceWmiText el.text

/-- The accumulation step of _parse_cim_element for a repeated name:
wrap a non-list existing value in a list, then append. -/
def cimAppend (existing : PyVal) (v : PyVal) : PyVal :=
  match existing with
  | PyVal.pyList l => PyVal.pyList (l ++ [v])
  | e => PyVal.pyList [e, v]

/-- _parse_cim_element (services.py): like dictify, but repeated names
accumulate their values into an ordered list. -/
def parseCimElement (children : List XChild) : PyDict :=
  children.foldl
    (fun r el =>
      let v := cimChildVal el
      match dictGet r el.name with
      | some existing => dictSet r el.name (cimAppend existing v)
      | Option.none => dictSet r el.name v)
    []

/-! ## Shell operation guards (shell.py) -/

/-- A WS-Management request issued by a shell operation, with the request
details the operation fills in. -/
inductive ShellRequest where
  | deleteShell (shellId : String)
  | command (shellId : String) (cmd : String) (args : List String)
  | send (shellId : String) (commandId : String) (data : Bytes) (endOfStream : Bool)
  | signal (shellId : String) (commandId : String) (code : String)
deriving DecidableEq, Repr

/-- The client-side state of a Shell object: its server-assigned id and the
destroyed flag. -/
structure ShellState where
  id : String
  destroyed : Bool
deriving DecidableEq, Repr

/-- The error message raised by guarded shell operations. -/
def shellDestroyedMsg : String := "Shell has been destroyed"

/-- Shell.destroy: raises if already destroyed, otherwise issues the
WS-Transfer Delete request and sets the destroyed flag. -/
def shellDestroy (s : ShellState) : Except String (ShellRequest × ShellState) :=
  if s.destroyed then Except.error shellDestroyedMsg
  else Except.ok (ShellRequest.deleteShell s.id, { s with destroyed := true })

/-- Shell.spawn: raises if destroyed, otherwise issues the Command request. -/
def shellSpawn (s : ShellState) (cmd : String) (args : List String) :
    Except String ShellRequest :=
  if s.destroyed then Except.error shellDestroyedMsg
  else Except.ok (ShellRequest.command s.id cmd args)

/-- Shell._send: issues the Send request; the function body contains no check
of the destroyed flag. -/
def shellSend (s : ShellState) (commandId : String) (data : Bytes)
    (endOfStream : Bool) : Except String ShellRequest :=
  Except.ok (ShellRequest.send s.id commandId data endOfStream)

/-- Shell._signal: issues the Signal request; the function body contains no
check of the destroyed flag. -/
def shellSignal (s : ShellState) (commandId : String) (code : String) :
    Except String ShellRequest :=
  Except.ok (ShellRequest.signal s.id commandId code)

/-- The Terminate signal code URI (protocol/shell.py). -/
def signalTerminate : String :=
  "http://schemas.microsoft.com/wbem/wsman/1/windows/shell/signal/Terminate"

/-! ## The shell receive loop (shell.py, Shell._receive_loop) -/

/-- A SOAP fault as raised by SOAPResponse.raise_for_status: WSManFaultError
(isWSMan true, carrying a wsman code) or a plain SOAPFaultError. -/
structure SOAPFault where
  isWSMan : Bool
  code : Option String
  reason : Option String
  wsmanCode : Option String
deriving DecidableEq, Repr

/-- Shell._is_operation_timeout_fault: a WSManFaultError whose wsman_code is
the string "2150858793". -/
def isOperationTimeoutFault (f : SOAPFault) : Bool :=
  f.isWSMan && f.wsmanCode == some "2150858793"

/-- The CommandState/Done state URI (protocol/shell.py, CommandState.Done). -/
def commandStateDone : String :=
  "http://schemas.microsoft.com/wbem/wsman/1/windows/shell/CommandState/Done"

/-- An event parsed from one ReceiveResponse (protocol/shell.py). -/
inductive ReceiveEvent where
  | stream (name : String) (commandId : String) (content : Bytes) (finished : Bool)
  | commandState (state : String) (exitCode : Option Int)
deriving DecidableEq, Repr

/-- One round of the receive loop: the outcome of one _get_events call.
Either the parsed events, a SOAP/WSMan fault raised by the Receive request,
or cancellation by the stdin path (_ReceiveCancelled). -/
inductive ReceiveRound where
  | events (evs : List ReceiveEvent)
  | fault (f : SOAPFault)
  | cancelled
deriving DecidableEq, Repr

/-- Python: event.exit_code or 0 (0 is falsy, None is falsy). -/
def pyOrInt (x : Option Int) (dflt : Int) : Int :=
  match x with
  | some v => if v = 0 then dflt else v
  | Option.none => dflt

/-- The mutable state of Shell._receive_loop. -/
structure ReceiveLoopState where
  doneFlag : Bool
  stdoutFinished : Bool
  stderrFinished : Bool
  returncode : Int
  doneSeen : Bool
  stdoutData : Bytes
  stderrData : Bytes
deriving DecidableEq, Repr

/-- The initial receive-loop state. -/
def initReceiveLoopState : ReceiveLoopState :=
  { doneFlag := false, stdoutFinished := false, stderrFinished := false,
    returncode := 0, doneSeen := false, stdoutData := [], stderrData := [] }

/-- Processes the events of one round in document order, mirroring the inner
async-for of _receive_loop: stream payloads are dispatched by the literal
names "stdout"/"stderr" (anything else ignored), End="true" marks a stream
finished, and a CommandState/Done event records the exit code (or 0 when
absent), sets done, and breaks out of the event iteration. -/
def processEvents : ReceiveLoopState → List ReceiveEvent → ReceiveLoopState
  | st, [] => st
  | st, ev :: rest =>
    match ev with
    | ReceiveEvent.stream nm _ content fin =>
      let st1 :=
        if nm = "stdout" then
          { st with stdoutData := st.stdoutData ++ content,
                    stdoutFinished := if fin then true else st.stdoutFinished }
        else if nm = "stderr" then
          { st with stderrData := st.stderrData ++ content,
                    stderrFinished := if fin then true else st.stderrFinished }
        else st
      processEvents st1 rest
    | ReceiveEvent.commandState stateUri exitCode =>
      if stateUri = commandStateDone then
        { st with doneFlag := true, doneSeen := true,
                  returncode := pyOrInt exitCode 0 }
      else processEvents st rest

/-- The observable outcome of a receive-loop run: the value the exit-code
future was set to (none while unset), how many times a set was performed,
how many Receive rounds were consumed, whether the loop is still awaiting
another Receive (rounds exhausted), and the final loop state. -/
structure ReceiveLoopResult where
  future : Option (Except SOAPFault Int)
  futureSets : Nat
  rounds : Nat
  awaitingReceive : Bool
  state : ReceiveLoopState
deriving Repr

/-- Shell._receive_loop over a list of round outcomes. Cancelled rounds and
operation-timeout faults are absorbed (continue); any other fault sets the
exit-code future to the exception and terminates; when done is reached the
future is set to the recorded return code. -/
def receiveLoop (rounds : List ReceiveRound) (st : ReceiveLoopState) :
    ReceiveLoopResult :=
  if st.doneFlag then
    { future := some (Except.ok st.returncode), futureSets := 1, rounds := 0,
      awaitingReceive := false, state := st }
  else
    match rounds with
    | [] =>
      { future := Option.none, futureSets := 0, rounds := 0,
        awaitingReceive := true, state := st }
    | r :: rest =>
      match r with
      | ReceiveRound.cancelled =>
        let o := receiveLoop rest st
        { o with rounds := o.rounds + 1 }
      | ReceiveRound.fault f =>
        if isOperationTimeoutFault f then
          let o := receiveLoop rest st
          { o with rounds := o.rounds + 1 }
        else
          { future := some (Except.error f), futureSets := 1, rounds := 1,
            awaitingReceive := false, state := st }
      | ReceiveRound.events evs =>
        let st1 := processEvents st evs
        let st2 :=
          if st1.stdoutFinished && st1.stderrFinished then
            { st1 with doneFlag := true }
          else st1
        let o := receiveLoop rest st2
        { o with rounds := o.rounds + 1 }

/-! ## The enumeration generator (client/wsman.py, WSManagementClient.enumerate) -/

/-- A child of an EnumerateResponse or PullResponse body element, in document
order: an EnumerationContext token, an Items element (its children are the
yielded items, modelled by numbers), or EndOfSequence. -/
inductive EnumChild where
  | ctxTok (t : String)
  | items (xs : List Nat)
  | eos
deriving DecidableEq, Repr

/-- The observable outcome of driving the enumerate generator: items yielded
to the consumer, the EnumerationContext carried by each Pull request,
the context carried by the Release request from the finally block (if one
was sent), whether ProtocolError("EnumerationContext missing from response")
was raised, and whether the run stopped only because the supplied responses
ran out while a Pull was pending. -/
structure EnumOutcome where
  yielded : List Nat
  pulls : List String
  released : Option String
  protoError : Bool
  pendingPull : Bool
deriving DecidableEq, Repr

/-- Scans the children of one response in document order, starting from
next_context = the current context. An items child yields its elements one
by one; the consumer budget (number of further items it will take before
closing the generator) decrements per yield, and hitting zero models the
consumer abandoning the generator at that yield (GeneratorExit). Returns
the yielded items, next_context, the finished flag, whether the scan was
abandoned mid-response, and the remaining budget. -/
def scanChildren : List EnumChild → Option String → Bool → Option Nat →
    (List Nat × Option String × Bool × Bool × Option Nat)
  | [], nctx, fin, budget => ([], nctx, fin, false, budget)
  | c :: rest, nctx, fin, budget =>
    match c with
    | EnumChild.ctxTok t => scanChildren rest (some t) fin budget
    | EnumChild.eos => scanChildren rest nctx true budget
    | EnumChild.items xs =>
      match budget with
      | Option.none =>
        let (ys, n2, f2, ab, b2) := scanChildren rest nctx fin Option.none
        (xs ++ ys, n2, f2, ab, b2)
      | some b =>
        if xs.length < b then
          let (ys, n2, f2, ab, b2) :=
            scanChildren rest nctx fin (some (b - xs.length))
          (xs ++ ys, n2, f2, ab, b2)
        else
          (xs.take b, nctx, fin, true, some 0)

/-- Drives the enumerate generator over the supplied responses: resp is the
response currently being walked, rest are the responses the server will
return to subsequent Pull requests, context is the adopted context from the
previous iteration, budget the consumer model. Mirrors the while loop and
finally block of WSManagementClient.enumerate. -/
def enumGo (resp : List EnumChild) (rest : List (List EnumChild))
    (context : Option String) (budget : Option Nat)
    (accItems : List Nat) (accPulls : List String) : EnumOutcome :=
  match scanChildren resp context false budget with
  | (ys, nctx, fin, abandoned, budget2) =>
    let itemsAll := accItems ++ ys
    if abandoned then
      { yielded := itemsAll, pulls := accPulls,
        released := if fin then Option.none else context,
        protoError := false, pendingPull := false }
    else
      match nctx with
      | Option.none =>
        { yielded := itemsAll, pulls := accPulls,
          released := if fin then Option.none else context,
          protoError := true, pendingPull := false }
      | some c =>
        if fin then
          { yielded := itemsAll, pulls := accPulls, released := Option.none,
            protoError := false, pendingPull := false }
        else
          match rest with
          | [] =>
            { yielded := itemsAll, pulls := accPulls ++ [c],
              released := Option.none, protoError := false,
              pendingPull := true }
          | r2 :: rest2 =>
            enumGo r2 rest2 (some c) budget2 itemsAll (accPulls ++ [c])

/-- WSManagementClient.enumerate driven from the initial Enumerate response:
no context adopted yet, nothing yielded, no Pull sent. -/
def enumRun (first : List EnumChild) (rest : List (List EnumChild))
    (budget : Option Nat) : EnumOutcome :=
  enumGo first rest Option.none budget [] []

/-- Whether a response contains an EndOfSequence child. -/
def hasEos (resp : List EnumChild) : Bool :=
  resp.any (fun c => c matches EnumChild.eos)

/-- Whether a response contains an EnumerationContext child. -/
def hasCtx (resp : List EnumChild) : Bool :=
  resp.any (fun c => c matches EnumChild.ctxTok _)

/-- The generator state after fully processing a prefix of responses, each
walked to its end by the while loop: the response's scan must adopt a
context, set no finished flag (EndOfSequence absent or not reached) and not
be abandoned by the consumer, so that the loop issues the next Pull. Carries
the adopted context, the remaining consumer budget, the accumulated yielded
items and the contexts of the issued Pull requests; none when the prefix is
not fully processed this way. -/
def chainRun : List (List EnumChild) → Option String → Option Nat →
    List Nat → List String →
    Option (Option String × Option Nat × List Nat × List String)
  | [], ctx, budget, acc, pulls => some (ctx, budget, acc, pulls)
  | r :: rest, ctx, budget, acc, pulls =>
    match scanChildren r ctx false budget with
    | (ys, some c, false, false, b2) =>
      chainRun rest (some c) b2 (acc ++ ys) (pulls ++ [c])
    | _ => Option.none

/-! ## The request envelope builder (client/wsman.py, build_request) -/

/-- A namespace-qualified XML name. -/
structure QName where
  ns : String
  localName : String
deriving DecidableEq, Repr

/-- Namespace URIs (protocol/xml/namespace.py). -/
def nsXml : String := "http://www.w3.org/XML/1998/namespace"
def nsSOAP : String := "http://www.w3.org/2003/05/soap-envelope"
def nsWSAddressing : String := "http://schemas.xmlsoap.org/ws/2004/08/addressing"
def nsWSManagement : String := "http://schemas.dmtf.org/wbem/wsman/1/wsman.xsd"

/-- Qualified names used by the envelope setters (protocol/xml). -/
def wsaTo : QName := ⟨nsWSAddressing, "To"⟩
def wsaReplyTo : QName := ⟨nsWSAddressing, "ReplyTo"⟩
def wsaAddress : QName := ⟨nsWSAddressing, "Address"⟩
def wsaAction : QName := ⟨nsWSAddressing, "Action"⟩
def wsaMessageID : QName := ⟨nsWSAddressing, "MessageID"⟩
def wsmanResourceURI : QName := ⟨nsWSManagement, "ResourceURI"⟩
def wsmanSelectorSet : QName := ⟨nsWSManagement, "SelectorSet"⟩
def wsmanSelector : QName := ⟨nsWSManagement, "Selector"⟩
def wsmanOptionSet : QName := ⟨nsWSManagement, "OptionSet"⟩
def wsmanOptionEl : QName := ⟨nsWSManagement, "Option"⟩
def wsmanLocale : QName := ⟨nsWSManagement, "Locale"⟩
def wsmanDataLocale : QName := ⟨nsWSManagement, "DataLocale"⟩
def wsmanOperationTimeout : QName := ⟨nsWSManagement, "OperationTimeout"⟩
def wsmanMaxEnvelopeSize : QName := ⟨nsWSManagement, "MaxEnvelopeSize"⟩
def soapMustUnderstand : QName := ⟨nsSOAP, "mustUnderstand"⟩
def xmlLang : QName := ⟨nsXml, "lang"⟩
def attrName : QName := ⟨"", "Name"⟩

/-- An XML element: tag, attributes, text and child elements. -/
structure XElem where
  tag : QName
  attrs : List (QName × String)
  text : Option String
  children : List XElem

/-- The Header element is modelled by its list of child elements. -/
abbrev Header := List XElem

/-- header.find(tag): first child element with the given tag. -/
def headerFind (h : Header) (t : QName) : Option XElem :=
  h.find? (fun e => e.tag == t)

/-- In-place mutation of the first child with the given tag (lxml elements
are mutable; the setters always mutate the element find returned). -/
def replaceFirst (h : Header) (t : QName) (f : XElem → XElem) : Header :=
  match h with
  | [] => []
  | e :: rest => if e.tag == t then f e :: rest else e :: replaceFirst rest t f

/-- header.remove(el): removes the first child with the given tag. -/
def removeFirst (h : Header) (t : QName) : Header :=
  match h with
  | [] => []
  | e :: rest => if e.tag == t then rest else e :: removeFirst rest t

/-- el.get(attr). -/
def attrGet (e : XElem) (a : QName) : Option String :=
  (e.attrs.find? (fun p => p.1 == a)).map Prod.snd

/-- el.set(attr, value): replaces the attribute or appends it. -/
def attrSet (e : XElem) (a : QName) (v : String) : XElem :=
  { e with attrs :=
      if e.attrs.any (fun p => p.1 == a) then
        e.attrs.map (fun p => if p.1 == a then (a, v) else p)
      else e.attrs ++ [(a, v)] }

/-- Common shape of the text-valued setters (to, action, message_id,
resource_uri, timeout, max_size setters in WSManagementEnvelope): find the
element; create it with the given attributes if absent and a value is given;
then set the text, or remove the element when the value is None. -/
def setTextField (h : Header) (t : QName) (createAttrs : List (QName × String))
    (v : Option String) : Header :=
  let h1 :=
    match headerFind h t, v with
    | Option.none, some _ => h ++ [⟨t, createAttrs, Option.none, []⟩]
    | _, _ => h
  match headerFind h1 t, v with
  | some _, some s => replaceFirst h1 t (fun e => { e with text := some s })
  | some _, Option.none => removeFirst h1 t
  | Option.none, _ => h1

/-- WSManagementEnvelope.to setter: plain element, no attributes set. -/
def setTo (h : Header) (v : Option String) : Header :=
  setTextField h wsaTo [] v

/-- WSManagementEnvelope.action setter: mustUnderstand="true" on creation. -/
def setAction (h : Header) (v : Option String) : Header :=
  setTextField h wsaAction [(soapMustUnderstand, "true")] v

/-- WSManagementEnvelope.message_id setter: plain element. -/
def setMessageId (h : Header) (v : Option String) : Header :=
  setTextField h wsaMessageID [] v

/-- WSManagementEnvelope.resource_uri setter: mustUnderstand="true" on creation. -/
def setResourceUri (h : Header) (v : Option String) : Header :=
  setTextField h wsmanResourceURI [(soapMustUnderstand, "true")] v

/-- WSManagementEnvelope.timeout setter: plain element. -/
def setTimeout (h : Header) (v : Option String) : Header :=
  setTextField h wsmanOperationTimeout [] v

/-- WSManagementEnvelope.max_size setter: mustUnderstand="true" on creation,
text is str(new_value). -/
def setMaxSize (h : Header) (v : Option Nat) : Header :=
  setTextField h wsmanMaxEnvelopeSize [(soapMustUnderstand, "true")]
    (v.map pyStrNat)

/-- WSManagementEnvelope.reply_to setter: creates a plain ReplyTo element,
then creates its Address child with mustUnderstand="true" and sets the
address text there. -/
def setReplyTo (h : Header) (v : Option String) : Header :=
  let h1 :=
    match headerFind h wsaReplyTo, v with
    | Option.none, some _ => h ++ [⟨wsaReplyTo, [], Option.none, []⟩]
    | _, _ => h
  match headerFind h1 wsaReplyTo with
  | Option.none => h1
  | some rt =>
    match rt.children.find? (fun e => e.tag == wsaAddress), v with
    | Option.none, some s =>
      replaceFirst h1 wsaReplyTo (fun e =>
        { e with children :=
            e.children ++ [⟨wsaAddress, [(soapMustUnderstand, "true")], some s, []⟩] })
    | some _, some s =>
      replaceFirst h1 wsaReplyTo (fun e =>
        { e with children :=
            replaceFirst e.children wsaAddress (fun a => { a with text := some s }) })
    | _, Option.none => removeFirst h1 wsaReplyTo

/-- Common shape of the locale setters: create with the given mustUnderstand
value, then set the xml:lang attribute (the text is never set). -/
def setLangField (h : Header) (t : QName) (muValue : String)
    (v : Option String) : Header :=
  let h1 :=
    match headerFind h t, v with
    | Option.none, some _ => h ++ [⟨t, [(soapMustUnderstand, muValue)], Option.none, []⟩]
    | _, _ => h
  match headerFind h1 t, v with
  | some _, some s => replaceFirst h1 t (fun e => attrSet e xmlLang s)
  | some _, Option.none => removeFirst h1 t
  | Option.none, _ => h1

/-- WSManagementEnvelope.locale setter: mustUnderstand="false" on creation. -/
def setLocale (h : Header) (v : Option String) : Header :=
  setLangField h wsmanLocale "false" v

/-- WSManagementEnvelope.data_locale setter: mustUnderstand="false" on creation. -/
def setDataLocale (h : Header) (v : Option String) : Header :=
  setLangField h wsmanDataLocale "false" v

/-- Common shape of the selectors/options setters: create the set element
with the given attributes (or clear an existing one), fill in one child per
mapping entry with a Name attribute and the value as text, or remove the
set element when the value is None. -/
def setMapField (h : Header) (setTag itemTag : QName)
    (createAttrs : List (QName × String))
    (v : Option (List (String × String))) : Header :=
  let mkItems : List (String × String) → List XElem := fun l =>
    l.map (fun p => ⟨itemTag, [(attrName, p.1)], some p.2, []⟩)
  match headerFind h setTag, v with
  | Option.none, some l => h ++ [⟨setTag, createAttrs, Option.none, mkItems l⟩]
  | some _, some l =>
    -- el.clear() removes attributes, text and children, then items are added
    replaceFirst h setTag (fun e =>
      { e with attrs := [], text := Option.none, children := mkItems l })
  | some _, Option.none => removeFirst h setTag
  | Option.none, Option.none => h

/-- WSManagementEnvelope.selectors setter: SelectorSet created without
attributes. -/
def setSelectors (h : Header) (v : Option (List (String × String))) : Header :=
  setMapField h wsmanSelectorSet wsmanSelector [] v

/-- WSManagementEnvelope.options setter: OptionSet created with
mustUnderstand="true". -/
def setOptions (h : Header) (v : Option (List (String × String))) : Header :=
  setMapField h wsmanOptionSet wsmanOptionEl [(soapMustUnderstand, "true")] v

/-- sec_to_duration for a whole number of seconds: utils.py converts the
number to a timedelta and renders it with isodate.duration_isoformat, which
normalises into days/hours/minutes/seconds, omits zero components, emits the
T section only when a sub-day component is present, and renders the zero
duration as P0D. -/
def secToDuration (n : Nat) : String :=
  if n = 0 then "P0D"
  else
    "P"
    ++ (if n / 86400 ≠ 0 then pyStrNat (n / 86400) ++ "D" else "")
    ++ (if n % 86400 ≠ 0 then
          "T"
          ++ (if n % 86400 / 3600 ≠ 0 then pyStrNat (n % 86400 / 3600) ++ "H" else "")
          ++ (if n % 3600 / 60 ≠ 0 then pyStrNat (n % 3600 / 60) ++ "M" else "")
          ++ (if n % 60 ≠ 0 then pyStrNat (n % 60) ++ "S" else "")
        else "")

/-- Python: max_size or self.max_envelope_size (0 and None are falsy). -/
def pyOrOptNat (a b : Option Nat) : Option Nat :=
  match a with
  | some n => if n = 0 then b else some n
  | Option.none => b

/-- WSManagementClient.build_request: the header produced for a request.
message_id and locale are the already-resolved values (the caller's
message_id or a fresh UUID URN; the argument locale or the client's);
timeout is the resolved operation timeout in seconds, if any; maxSize and
clientMaxSize mirror the max_size argument and the client default. -/
def buildRequest (endpoint : String) (action : String) (messageId : String)
    (resourceUri : Option String)
    (selectors options : Option (List (String × String)))
    (locale : Option String) (timeout : Option Nat)
    (maxSize clientMaxSize : Option Nat) : Header :=
  let h1 := setTo [] (some endpoint)
  let h2 := setReplyTo h1 (some (nsWSAddressing ++ "/role/anonymous"))
  let h3 := setAction h2 (some action)
  let h4 := setMessageId h3 (some messageId)
  let h5 := setResourceUri h4 resourceUri
  let h6 := setSelectors h5 selectors
  let h7 := setOptions h6 options
  let h8 := setLocale h7 locale
  let h9 := setDataLocale h8 locale
  let h10 :=
    match timeout with
    | some n => setTimeout h9 (some (secToDuration n))
    | Option.none => h9
  setMaxSize h10 (pyOrOptNat maxSize clientMaxSize)

/-! ## WinRM message encryption (auth/encryption.py) -/

/-- The MIME boundary bytes: --Encrypted Boundary. -/
def mimeBoundary : Bytes := bstr "--Encrypted Boundary"

/-- The boundary line the response body is split on. -/
def mimeSep : Bytes := mimeBoundary ++ bstr "\r\n"

/-- The closing boundary appended by encrypt_message. -/
def mimeTerminator : Bytes := mimeBoundary ++ bstr "--\r\n"

/-- The encryption protocol identifier. -/
def encProtocol : String := "application/HTTP-SPNEGO-session-encrypted"

/-- The multipart/encrypted Content-Type header value. -/
def encContentType : String :=
  "multipart/encrypted;protocol=\"application/HTTP-SPNEGO-session-encrypted\";boundary=\"Encrypted Boundary\""

/-- The octet-stream content-type line inside the encrypted part. -/
def octetStreamLine : Bytes := bstr "\tContent-Type: application/octet-stream\r\n"

/-- CRLF bytes. -/
def crlfB : Bytes := bstr "\r\n"

/-- The fixed metadata-header bytes of an encrypted part as produced by
_encrypt_message, up to and including the Length= marker. -/
def hdrFixed : Bytes :=
  bstr "\tContent-Type: " ++ bstr encProtocol ++ bstr "\r\n"
    ++ bstr "\tOriginalContent: type=application/soap+xml;charset=UTF-8;Length="

/-- The stripped metadata header before the Length= marker. -/
def lengthPre : Bytes :=
  bstr "Content-Type: " ++ bstr encProtocol ++ bstr "\r\n"
    ++ bstr "\tOriginalContent: type=application/soap+xml;charset=UTF-8;"

/-- struct.pack of a non-negative 32-bit value, little endian. -/
def packLE32 (n : Nat) : Bytes :=
  [n % 256, n / 256 % 256, n / 65536 % 256, n / 16777216 % 256]

/-- struct.unpack little-endian 32-bit signed decode. -/
def unpackLE32Signed (b0 b1 b2 b3 : Nat) : Int :=
  let u := b0 % 256 + 256 * (b1 % 256) + 65536 * (b2 % 256) + 16777216 * (b3 % 256)
  if u < 2147483648 then (u : Int) else (u : Int) - 4294967296

/-- A SPNEGO mechanism context, abstract over its WinRM wrap and unwrap:
wrap_winrm(message) returns a signature header and the encrypted data;
unwrap_winrm(header, data) recovers the message. -/
structure SpnegoContext where
  wrapHeader : Bytes → Bytes
  wrapData : Bytes → Bytes
  unwrapWinrm : Bytes → Bytes → Bytes

/-- _encrypt_message: the multipart payload before the closing boundary. -/
def encryptMessagePayload (ctx : SpnegoContext) (message : Bytes) : Bytes :=
  let hdr := ctx.wrapHeader message
  let dat := ctx.wrapData message
  mimeBoundary ++ bstr "\r\n"
    ++ bstr "\tContent-Type: " ++ bstr encProtocol ++ bstr "\r\n"
    ++ bstr "\tOriginalContent: type=application/soap+xml;charset=UTF-8;Length="
    ++ natDecimalBytes message.length ++ bstr "\r\n"
    ++ mimeBoundary ++ bstr "\r\n"
    ++ octetStreamLine ++ packLE32 hdr.length ++ hdr ++ dat

/-- encrypt_message: appends the closing boundary and returns the body with
the Content-Type and Content-Length headers. -/
def encryptMessage (ctx : SpnegoContext) (message : Bytes) :
    Bytes × String × Nat :=
  let body := encryptMessagePayload ctx message ++ mimeTerminator
  (body, encContentType, body.length)

/-- Python bytes.split(sep) for a nonempty separator s0 :: srest:
left-to-right non-overlapping splitting. -/
def pySplitAux (s0 : Nat) (srest : Bytes) : Bytes → Bytes → List Bytes
  | [], acc => [acc.reverse]
  | y :: ys, acc =>
    if (s0 :: srest).isPrefixOf (y :: ys) then
      acc.reverse :: pySplitAux s0 srest (ys.drop srest.length) []
    else
      pySplitAux s0 srest ys (y :: acc)
termination_by xs _ => xs.length
decreasing_by
  · simp only [List.length_drop, List.length_cons]; omega
  · simp only [List.length_cons]; omega

/-- Python bytes.split(sep). An empty separator raises in Python and is not
used by this code; it is mapped to the identity split. -/
def pySplitB (sep : Bytes) (xs : Bytes) : List Bytes :=
  match sep with
  | [] => [xs]
  | s0 :: srest => pySplitAux s0 srest xs []

/-- Python bytes.replace(pat, b"") for a nonempty pattern p0 :: prest:
removes every non-overlapping occurrence, scanning left to right. -/
def pyRemoveAllAux (p0 : Nat) (prest : Bytes) : Bytes → Bytes
  | [] => []
  | y :: ys =>
    if (p0 :: prest).isPrefixOf (y :: ys) then
      pyRemoveAllAux p0 prest (ys.drop prest.length)
    else
      y :: pyRemoveAllAux p0 prest ys
termination_by xs => xs.length
decreasing_by
  · simp only [List.length_drop, List.length_cons]; omega
  · simp only [List.length_cons]; omega

/-- Python bytes.replace(pat, b""). -/
def pyRemoveAll (pat : Bytes) (xs : Bytes) : Bytes :=
  match pat with
  | [] => xs
  | p0 :: prest => pyRemoveAllAux p0 prest xs

/-- Whether pat occurs as a contiguous subsequence of xs. -/
def bytesContains : Bytes → Bytes → Bool
  | pat, [] => pat.isEmpty
  | pat, y :: ys => pat.isPrefixOf (y :: ys) || bytesContains pat ys

/-- _decrypt_message: reads the 4-byte little-endian header length, splits
header from data and calls the mechanism unwrap. -/
def decryptMessage (ctx : SpnegoContext) (encryptedData : Bytes) :
    Except String Bytes :=
  match encryptedData with
  | b0 :: b1 :: b2 :: b3 :: rest =>
    let hl := unpackLE32Signed b0 b1 b2 b3
    if hl < 0 ∨ (encryptedData.length : Int) < 4 + hl then
      Except.error "Encrypted payload header length is invalid"
    else
      Except.ok (ctx.unwrapWinrm (rest.take hl.toNat) (rest.drop hl.toNat))
  | _ => Except.error "Encrypted payload is too short to contain header length"

/-- The body of the loop of _decrypt_response over the filtered parts, taken
two at a time (metadata part, payload part). -/
def decryptResponseGo (ctx : SpnegoContext) : List Bytes → Except String Bytes
  | [] => Except.ok []
  | [_] => Except.error "Encrypted response is missing payload part"
  | hdr :: payload :: rest =>
    match (pySplitB (bstr "Length=") (pyStripB hdr)).get? 1 with
    | Option.none => Except.error "Encrypted response missing Length header"
    | some lenB =>
      match pyIntB lenB with
      | Option.none => Except.error "Encrypted response missing Length header"
      | some expectedLength =>
        let payload2 :=
          if mimeTerminator.isSuffixOf payload then
            payload.take (payload.length - mimeTerminator.length)
          else payload
        let encryptedData := pyRemoveAll octetStreamLine payload2
        match decryptMessage ctx encryptedData with
        | Except.error e => Except.error e
        | Except.ok dm =>
          if (dm.length : Int) ≠ expectedLength then
            Except.error "Encrypted response length does not match expected size"
          else
            match decryptResponseGo ctx rest with
            | Except.ok more => Except.ok (dm ++ more)
            | Except.error e => Except.error e

/-- _decrypt_response: split on the boundary line, drop empty parts, decrypt
the (metadata, payload) pairs and concatenate the plaintexts. -/
def decryptResponse (ctx : SpnegoContext) (content : Bytes) :
    Except String Bytes :=
  decryptResponseGo ctx ((pySplitB mimeSep content).filter (fun p => !p.isEmpty))

/-- decrypt_response_content: decrypts only when the response Content-Type
advertises the SPNEGO session protocol. -/
def decryptResponseContent (ctx : SpnegoContext) (content : Bytes)
    (contentType : String) : Except String Bytes :=
  if bytesContains (bstr ("protocol=\"" ++ encProtocol ++ "\"")) (bstr contentType) then
    decryptResponse ctx content
  else Except.ok content

/-- No occurrence of pat begins inside region when region is followed by
tail: the side condition under which Python split/replace leave the region
intact. -/
def noOccurrenceFrom (pat : Bytes) (region : Bytes) (tail : Bytes) : Prop :=
  ∀ k, k < region.length → ¬ pat.isPrefixOf (region.drop k ++ tail)

/-- How _parse_cim_element combines an existing entry (if any) with the
later same-name values: the first value is stored directly, later ones are
appended through cimAppend. -/
def cimCombine : Option PyVal → List PyVal → Option PyVal
  | Option.none, [] => Option.none
  | Option.none, v :: vs => some (vs.foldl cimAppend v)
  | some e, vs => some (vs.foldl cimAppend e)

/-- A receive event that neither finishes a stream nor reports a command
state: a stream chunk with End absent. -/
def harmlessEvent (ev : ReceiveEvent) : Prop :=
  ∃ nm cid content, ev = ReceiveEvent.stream nm cid content false

/-- A receive round the loop absorbs and continues after: a cancellation, an
operation-timeout fault, or events that neither finish streams nor report a
command state. -/
def nonTerminalRound (r : ReceiveRound) : Prop :=
  r = ReceiveRound.cancelled ∨
  (∃ f, r = ReceiveRound.fault f ∧ isOperationTimeoutFault f = true) ∨
  (∃ evs, r = ReceiveRound.events evs ∧ ∀ ev ∈ evs, harmlessEvent ev)

/-- A pull response consisting of one EnumerationContext token and one Items
element with a single item, in WSMan document order. -/
def mkEnumResp (p : String × Nat) : List EnumChild :=
  [EnumChild.ctxTok p.1, EnumChild.items [p.2]]

/-- All items of a response, in document order. -/
def enumItems (children : List EnumChild) : List Nat :=
  match children with
  | [] => []
  | EnumChild.items xs :: rest => xs ++ enumItems rest
  | _ :: rest => enumItems rest

/-- The last EnumerationContext token of a response, else the current one. -/
def lastCtx (children : List EnumChild) (nctx : Option String) : Option String :=
  match children with
  | [] => nctx
  | EnumChild.ctxTok t :: rest => lastCtx rest (some t)
  | _ :: rest => lastCtx rest nctx

/-- The last element of a list of strings as an option, with a default. -/
def lastSome (l : List String) (dflt : Option String) : Option String :=
  match l with
  | [] => dflt
  | a :: rest => lastSome rest (some a)

/-! ## Supporting lemmas -/

/-- A string with a nonempty left part stays nonempty under append. -/
theorem string_append_ne_empty {s : String} (t : String) (h : s ≠ "") :
    s ++ t ≠ "" := by
  intro he
  apply h
  have hd : (s ++ t).data = ([] : List Char) := by rw [he]
  rw [String.data_append] at hd
  rcases List.append_eq_nil.mp hd with ⟨h1, _⟩
  cases s with
  | mk l => cases h1; rfl

/-! ## C9: registry child-path navigation -/

/-- C9: for every registry key k and paths p, q: k.key("") equals k; a key
with empty path yields path p under key(p); RegistryTree.key matches
root-key navigation; and for nonempty p and q, k.key(p).key(q) is the
backslash-join of k.path, p and q with empty segments absorbed. -/
theorem C9_registry_path_join :
    (∀ k : RegistryKey, k.key "" = k) ∧
    (∀ (t : Nat) (p : String), (RegistryKey.mk t "").key p = RegistryKey.mk t p) ∧
    (∀ (t : RegistryTree) (p : String), t.key p = (RegistryKey.mk t.tree "").key p) ∧
    (∀ (k : RegistryKey) (p q : String), p ≠ "" → q ≠ "" →
      (k.key p).key q = RegistryKey.mk k.tree (joinSegments [k.path, p, q])) := by
  refine ⟨?_, ?_, ?_, ?_⟩
  · intro k
    rcases k with ⟨t, s⟩
    simp only [RegistryKey.key, RegistryKey.childPath]
    by_cases h : s = "" <;> simp [h]
  · intro t p
    simp [RegistryKey.key, RegistryKey.childPath]
  · intro t p
    simp [RegistryTree.key, RegistryKey.key, RegistryKey.childPath]
  · intro k p q hp hq
    rcases k with ⟨t, s⟩
    by_cases hs : s = ""
    · subst hs
      simp [RegistryKey.key, RegistryKey.childPath, joinSegments, hp, hq]
    · have hsp : s ++ "\\" ++ p ≠ "" := by
        have h1 : s ++ "\\" ≠ "" := string_append_ne_empty _ hs
        exact string_append_ne_empty _ h1
      simp [RegistryKey.key, RegistryKey.childPath, joinSegments, hp, hq, hs, hsp]

/-- C9 witness: the join law applied to a concrete key and subpaths. -/
theorem C9_registry_path_join_witness :
    ("Vendor" ≠ "" ∧ "App" ≠ "" ∧
      ((RegistryKey.mk treeLocalMachine "SOFTWARE").key "Vendor").key "App"
        = RegistryKey.mk treeLocalMachine "SOFTWARE\\Vendor\\App") := by
  refine ⟨by decide, by decide, ?_⟩
  have h := C9_registry_path_join.2.2.2 (RegistryKey.mk treeLocalMachine "SOFTWARE")
    "Vendor" "App" (by decide) (by decide)
  rw [h]
  rfl

/-! ## C8: operations on a destroyed shell -/

/-- C8 counterexample: on a shell whose destroyed flag is set, _signal and
_send do not raise a "shell destroyed" error: both issue their WS-Management
request (their bodies contain no check of the flag), contradicting the claim
that every further operation raises. -/
theorem C8_destroyed_shell_counterexample :
    shellSignal ⟨"shell-1", true⟩ "cmd-1" signalTerminate
        = Except.ok (ShellRequest.signal "shell-1" "cmd-1" signalTerminate) ∧
    shellSend ⟨"shell-1", true⟩ "cmd-1" (bstr "input") false
        = Except.ok (ShellRequest.send "shell-1" "cmd-1" (bstr "input") false) :=
  ⟨rfl, rfl⟩

/-- C8 amended: after destroy() sets the destroyed flag, spawning a command
and destroying again raise the "shell destroyed" error; sending stdin and
signalling a command perform no check and still issue their requests.
Destroying a live shell issues Delete and sets the flag. -/
theorem C8_destroyed_shell_guards (s : ShellState) :
    (s.destroyed = true →
      (∀ cmd args, shellSpawn s cmd args = Except.error shellDestroyedMsg) ∧
      shellDestroy s = Except.error shellDestroyedMsg ∧
      (∀ cid data e, shellSend s cid data e
          = Except.ok (ShellRequest.send s.id cid data e)) ∧
      (∀ cid code, shellSignal s cid code
          = Except.ok (ShellRequest.signal s.id cid code))) ∧
    (s.destroyed = false →
      shellDestroy s
        = Except.ok (ShellRequest.deleteShell s.id, { s with destroyed := true })) := by
  constructor
  · intro hd
    refine ⟨?_, ?_, ?_, ?_⟩
    · intro cmd args; simp [shellSpawn, hd]
    · simp [shellDestroy, hd]
    · intro cid data e; rfl
    · intro cid code; rfl
  · intro hd
    simp [shellDestroy, hd]

/-- C8 witness: the guards evaluated on a concrete destroyed shell. -/
theorem C8_destroyed_shell_guards_witness :
    (ShellState.mk "sh" true).destroyed = true ∧
    shellSpawn ⟨"sh", true⟩ "cmd.exe" [] = Except.error shellDestroyedMsg ∧
    shellDestroy ⟨"sh", true⟩ = Except.error shellDestroyedMsg := by
  have h := (C8_destroyed_shell_guards ⟨"sh", true⟩).1 rfl
  exact ⟨rfl, h.1 "cmd.exe" [], h.2.1⟩

/-! ## Decimal parsing lemmas -/

/-- The decimal digit list of a natural number is never empty. -/
theorem natDigits_ne_nil (n : Nat) : natDigits n ≠ [] := by
  rw [natDigits]
  split <;> simp

/-- Every entry of natDigits is a digit value. -/
theorem natDigits_lt (n : Nat) : ∀ d ∈ natDigits n, d < 10 := by
  induction n using Nat.strong_induction_on with
  | _ n ih =>
    rw [natDigits]
    split
    · intro d hd
      simp only [List.mem_singleton] at hd
      omega
    · intro d hd
      rcases List.mem_append.mp hd with h | h
      · exact ih (n / 10) (Nat.div_lt_self (by omega) (by omega)) d h
      · simp only [List.mem_singleton] at h
        omega

/-- Every byte of a decimal representation is an ASCII digit. -/
theorem natDecimalBytes_digit (n : Nat) :
    ∀ b ∈ natDecimalBytes n, 48 ≤ b ∧ b ≤ 57 := by
  intro b hb
  rcases List.mem_map.mp hb with ⟨d, hd, rfl⟩
  have := natDigits_lt n d hd
  omega

/-- Parsing a run of ASCII digits followed by more input folds the digits
into the accumulator and continues. -/
theorem parseDigitsRest_digits_append (u : Bytes)
    (hu : ∀ b ∈ u, 48 ≤ b ∧ b ≤ 57) (acc : Nat) (rest : Bytes) :
    parseDigitsRest acc (u ++ rest)
      = parseDigitsRest (u.foldl (fun a b => a * 10 + (b - 48)) acc) rest := by
  induction u generalizing acc with
  | nil => simp
  | cons b u2 ihu =>
    have hb := hu b (by simp)
    have hb95 : ¬ b = 95 := by omega
    have hdv : digitValB b = some (b - 48) := by
      simp [digitValB, hb.1, hb.2]
    have step : parseDigitsRest acc ((b :: u2) ++ rest)
        = parseDigitsRest (acc * 10 + (b - 48)) (u2 ++ rest) := by
      rw [List.cons_append, parseDigitsRest.eq_def]
      simp [hb95, hdv]
    rw [step, List.foldl_cons]
    exact ihu (fun x hx => hu x (by simp [hx])) (acc * 10 + (b - 48))

/-- Value of the digit fold over a decimal representation. -/
theorem natDecimalBytes_foldl (n : Nat) : ∀ acc : Nat,
    (natDecimalBytes n).foldl (fun a b => a * 10 + (b - 48)) acc
      = acc * 10 ^ (natDigits n).length + n := by
  induction n using Nat.strong_induction_on with
  | _ n ih =>
    intro acc
    unfold natDecimalBytes
    rw [natDigits]
    split
    · simp only [List.map_cons, List.map_nil, List.foldl_cons, List.foldl_nil,
        List.length_cons, List.length_nil]
      have h10 : (10 : Nat) ^ (0 + 1) = 10 := by norm_num
      rw [h10]
      omega
    · rename_i h
      rw [List.map_append, List.foldl_append]
      have ih1 := ih (n / 10) (Nat.div_lt_self (by omega) (by omega)) acc
      unfold natDecimalBytes at ih1
      rw [ih1]
      simp only [List.map_cons, List.map_nil, List.foldl_cons, List.foldl_nil,
        List.length_append, List.length_cons, List.length_nil]
      have hmod : 48 + n % 10 - 48 = n % 10 := by omega
      rw [hmod]
      have hlen : (natDigits (n / 10)).length + (0 + 1)
          = (natDigits (n / 10)).length + 1 := by omega
      rw [hlen, pow_succ]
      generalize (10 : Nat) ^ (natDigits (n / 10)).length = X
      rw [show (acc * X + n / 10) * 10 + n % 10
          = acc * (X * 10) + (10 * (n / 10) + n % 10) from by ring,
        Nat.div_add_mod]

/-- A nonempty all-digit byte string parses to its decimal value. -/
theorem parseDigitsB_all_digits (l : Bytes) (hne : l ≠ [])
    (hd : ∀ b ∈ l, 48 ≤ b ∧ b ≤ 57) :
    parseDigitsB l = some (l.foldl (fun a b => a * 10 + (b - 48)) 0) := by
  cases l with
  | nil => exact absurd rfl hne
  | cons b r =>
    have hb := hd b (by simp)
    have hdv : digitValB b = some (b - 48) := by
      simp [digitValB, hb.1, hb.2]
    simp only [parseDigitsB, hdv, List.foldl_cons]
    have happ := parseDigitsRest_digits_append r
      (fun x hx => hd x (by simp [hx])) (b - 48) []
    rw [List.append_nil] at happ
    rw [happ]
    simp [parseDigitsRest]

/-- The decimal bytes of n parse back to n. -/
theorem parseDigitsB_decimal (n : Nat) :
    parseDigitsB (natDecimalBytes n) = some n := by
  have hne : natDecimalBytes n ≠ [] := by
    unfold natDecimalBytes
    simp [natDigits_ne_nil n]
  rw [parseDigitsB_all_digits _ hne (natDecimalBytes_digit n),
    natDecimalBytes_foldl n 0]
  simp

/-- dropWhile is the identity when no element satisfies the predicate. -/
theorem dropWhile_eq_self_of_all {p : Nat → Bool} {xs : Bytes}
    (h : ∀ b ∈ xs, p b = false) : xs.dropWhile p = xs := by
  cases xs with
  | nil => rfl
  | cons a l => simp [List.dropWhile_cons, h a (by simp)]

/-- Stripping is the identity on byte strings with no whitespace. -/
theorem pyStripB_eq_self {xs : Bytes} (h : ∀ b ∈ xs, isPyWsB b = false) :
    pyStripB xs = xs := by
  unfold pyStripB
  rw [dropWhile_eq_self_of_all h,
    dropWhile_eq_self_of_all (fun b hb => h b (List.mem_reverse.mp hb)),
    List.reverse_reverse]

/-- ASCII digits are not Python whitespace. -/
theorem digit_not_ws {b : Nat} (h : 48 ≤ b ∧ b ≤ 57) : isPyWsB b = false := by
  simp only [isPyWsB, Bool.or_eq_false_iff, beq_eq_false_iff_ne]
  omega

/-- Python int() of the decimal bytes of n yields n. -/
theorem pyIntB_decimal (n : Nat) :
    pyIntB (natDecimalBytes n) = some (Int.ofNat n) := by
  have hstrip : pyStripB (natDecimalBytes n) = natDecimalBytes n :=
    pyStripB_eq_self (fun b hb => digit_not_ws (natDecimalBytes_digit n b hb))
  have hne : natDecimalBytes n ≠ [] := by
    unfold natDecimalBytes
    simp [natDigits_ne_nil n]
  rcases List.exists_cons_of_ne_nil hne with ⟨b, r, hbr⟩
  have hb : 48 ≤ b ∧ b ≤ 57 := natDecimalBytes_digit n b (by rw [hbr]; simp)
  have h43 : ¬ b = 43 := by omega
  have h45 : ¬ b = 45 := by omega
  unfold pyIntB
  rw [hstrip, hbr]
  simp only [h43, if_false, h45]
  rw [← hbr, parseDigitsB_decimal n]
  rfl

/-! ## Python str(int) round trip -/

/-- toNat of a digit character. -/
theorem digitChar_toNat {d : Nat} (h : d < 10) : (digitChar d).toNat = 48 + d := by
  interval_cases d <;> decide

/-- The byte string of str(n) is the decimal byte representation. -/
theorem bstr_pyStrNat (n : Nat) : bstr (pyStrNat n) = natDecimalBytes n := by
  show ((natDigits n).map digitChar).map Char.toNat = (natDigits n).map (fun d => 48 + d)
  rw [List.map_map]
  apply List.map_congr_left
  intro d hd
  exact digitChar_toNat (natDigits_lt n d hd)

/-- The byte string of str(k) for negative k: a minus sign then the digits. -/
theorem bstr_pyStrInt_neg {k : Int} (hk : k < 0) :
    bstr (pyStrInt k) = 45 :: natDecimalBytes k.natAbs := by
  unfold pyStrInt
  rw [if_pos hk]
  show (("-" ++ pyStrNat k.natAbs).data).map Char.toNat = _
  rw [String.data_append, List.map_append]
  rw [show (("-" : String).data).map Char.toNat = [45] from rfl]
  rw [show ((pyStrNat k.natAbs).data).map Char.toNat = natDecimalBytes k.natAbs
    from bstr_pyStrNat k.natAbs]
  rfl

/-- Evaluation of pyIntB on an already-stripped nonempty byte string. -/
theorem pyIntB_strip_cons (b : Nat) (rest : Bytes)
    (h : pyStripB (b :: rest) = b :: rest) :
    pyIntB (b :: rest)
      = if b = 43 then (parseDigitsB rest).map Int.ofNat
        else if b = 45 then (parseDigitsB rest).map (fun m => -(m : Int))
        else (parseDigitsB (b :: rest)).map Int.ofNat := by
  unfold pyIntB
  rw [h]

/-- Python int(str(k)) = k. -/
theorem pyInt_pyStrInt (k : Int) : pyInt (pyStrInt k) = some k := by
  by_cases hk : k < 0
  · unfold pyInt
    rw [bstr_pyStrInt_neg hk]
    have hnws : ∀ b ∈ 45 :: natDecimalBytes k.natAbs, isPyWsB b = false := by
      intro b hb
      rcases List.mem_cons.mp hb with h | h
      · subst h; decide
      · exact digit_not_ws (natDecimalBytes_digit _ b h)
    rw [pyIntB_strip_cons 45 _ (pyStripB_eq_self hnws)]
    rw [if_neg (by omega), if_pos rfl, parseDigitsB_decimal]
    show some (-(Int.ofNat k.natAbs)) = some k
    exact congrArg some (by rw [Int.ofNat_eq_natCast]; omega)
  · unfold pyInt pyStrInt
    rw [if_neg hk, bstr_pyStrNat, pyIntB_decimal]
    exact congrArg some (Int.natAbs_of_nonneg (Int.not_lt.mp hk))

/-- str(k) is never the literal "false". -/
theorem pyStrInt_ne_false (k : Int) : pyStrInt k ≠ "false" := by
  intro h
  have hb := congrArg bstr h
  rw [show bstr "false" = [102, 97, 108, 115, 101] from rfl] at hb
  by_cases hk : k < 0
  · rw [bstr_pyStrInt_neg hk] at hb
    simp at hb
  · unfold pyStrInt at hb
    rw [if_neg hk, bstr_pyStrNat] at hb
    have hmem : (102 : Nat) ∈ natDecimalBytes k.natAbs := by rw [hb]; simp
    have := natDecimalBytes_digit k.natAbs 102 hmem
    omega

/-- str(k) is never the literal "true". -/
theorem pyStrInt_ne_true (k : Int) : pyStrInt k ≠ "true" := by
  intro h
  have hb := congrArg bstr h
  rw [show bstr "true" = [116, 114, 117, 101] from rfl] at hb
  by_cases hk : k < 0
  · rw [bstr_pyStrInt_neg hk] at hb
    simp at hb
  · unfold pyStrInt at hb
    rw [if_neg hk, bstr_pyStrNat] at hb
    have hmem : (116 : Nat) ∈ natDecimalBytes k.natAbs := by rw [hb]; simp
    have := natDecimalBytes_digit k.natAbs 116 hmem
    omega

/-! ## Dictionary lemmas -/

/-- Getting a key just set returns the new value. -/
theorem dictGet_set_self (m : PyDict) (k : String) (v : PyVal) :
    dictGet (dictSet m k v) k = some v := by
  induction m with
  | nil => simp [dictSet, dictGet, List.find?]
  | cons p m ih =>
    by_cases hp : p.1 = k
    · simp [dictSet, hp, dictGet, List.find?]
    · have hbeq : (p.1 == k) = false := beq_eq_false_iff_ne.mpr hp
      simp only [dictSet, hp, if_false]
      simpa [dictGet, List.find?, hbeq] using ih

/-- Setting one key does not change another key. -/
theorem dictGet_set_other (m : PyDict) (k k2 : String) (v : PyVal)
    (h : k2 ≠ k) : dictGet (dictSet m k v) k2 = dictGet m k2 := by
  have hkk2 : (k == k2) = false := beq_eq_false_iff_ne.mpr (fun he => h he.symm)
  induction m with
  | nil => simp [dictSet, dictGet, List.find?, hkk2]
  | cons p m ih =>
    by_cases hp : p.1 = k
    · simp [dictSet, hp, dictGet, List.find?, hkk2]
    · simp only [dictSet, hp, if_false]
      by_cases hp2 : p.1 = k2
      · simp [dictGet, List.find?, hp2]
      · have hb2 : (p.1 == k2) = false := beq_eq_false_iff_ne.mpr hp2
        simpa [dictGet, List.find?, hb2] using ih

/-- find? distributes over append. -/
theorem find?_append_or {α : Type} (p : α → Bool) (l1 l2 : List α) :
    (l1 ++ l2).find? p
      = match l1.find? p with
        | some a => some a
        | Option.none => l2.find? p := by
  induction l1 with
  | nil => simp
  | cons a l ih =>
    by_cases hpa : p a = true
    · simp [List.find?, hpa]
    · have hpa2 : p a = false := by simpa using hpa
      simp [List.find?, hpa2, ih]

/-! ## Dictification fold lemmas -/

/-- dictify looks up to the last child with the given name: the fold from
any accumulator. -/
theorem dictify_foldl_get (children : List XChild) (acc : PyDict) (name : String) :
    dictGet (children.foldl (fun r el => dictSet r el.name (dictifyChildVal el)) acc) name
      = match children.reverse.find? (fun el => el.name == name) with
        | some el => some (dictifyChildVal el)
        | Option.none => dictGet acc name := by
  induction children generalizing acc with
  | nil => simp
  | cons el rest ih =>
    simp only [List.foldl_cons, List.reverse_cons]
    rw [ih, find?_append_or]
    cases hfind : rest.reverse.find? (fun e => e.name == name) with
    | some e2 => simp
    | none =>
      by_cases hn : el.name = name
      · have hbeq : (el.name == name) = true := beq_iff_eq.mpr hn
        simp only [List.find?, hbeq]
        subst hn
        exact dictGet_set_self acc el.name _
      · have hbeq : (el.name == name) = false := beq_eq_false_iff_ne.mpr hn
        simp only [List.find?, hbeq]
        exact dictGet_set_other acc el.name name _ (fun he => hn he.symm)

/-- _parse_cim_element accumulates same-name values through cimCombine: the
fold from any accumulator. -/
theorem parseCim_foldl_get (children : List XChild) (acc : PyDict) (name : String) :
    dictGet (children.foldl
        (fun r el =>
          let v := cimChildVal el
          match dictGet r el.name with
          | some existing => dictSet r el.name (cimAppend existing v)
          | Option.none => dictSet r el.name v) acc) name
      = cimCombine (dictGet acc name)
          ((children.filter (fun el => el.name == name)).map cimChildVal) := by
  induction children generalizing acc with
  | nil =>
    simp only [List.foldl_nil, List.filter_nil, List.map_nil]
    cases h : dictGet acc name <;> simp [cimCombine, h]
  | cons el rest ih =>
    simp only [List.foldl_cons, List.filter_cons]
    by_cases hn : el.name = name
    · have hbeq : (el.name == name) = true := beq_iff_eq.mpr hn
      simp only [hbeq, if_true, List.map_cons]
      cases hget : dictGet acc el.name with
      | some ex =>
        simp only [hget]
        rw [ih]
        have hself : dictGet (dictSet acc el.name (cimAppend ex (cimChildVal el))) name
            = some (cimAppend ex (cimChildVal el)) := by
          subst hn; exact dictGet_set_self acc el.name _
        rw [hself]
        have hacc : dictGet acc name = some ex := by subst hn; exact hget
        rw [hacc]
        cases hrest : (rest.filter (fun e => e.name == name)).map cimChildVal with
        | nil => simp [cimCombine]
        | cons w ws => simp [cimCombine, List.foldl_cons]
      | none =>
        simp only [hget]
        rw [ih]
        have hself : dictGet (dictSet acc el.name (cimChildVal el)) name
            = some (cimChildVal el) := by
          subst hn; exact dictGet_set_self acc el.name _
        rw [hself]
        have hacc : dictGet acc name = Option.none := by subst hn; exact hget
        rw [hacc]
        cases hrest : (rest.filter (fun e => e.name == name)).map cimChildVal with
        | nil => simp [cimCombine]
        | cons w ws => simp [cimCombine, List.foldl_cons]
    · have hbeq : (el.name == name) = false := beq_eq_false_iff_ne.mpr hn
      simp only [hbeq, if_false]
      have hother : ∀ v : PyVal, dictGet (dictSet acc el.name v) name = dictGet acc name :=
        fun v => dictGet_set_other acc el.name name v (fun he => hn he.symm)
      cases hget : dictGet acc el.name with
      | some ex => simp only [hget]; rw [ih, hother]; simp
      | none => simp only [hget]; rw [ih, hother]; simp

/-- The stored value for a child is never a Python list. -/
theorem cimChildVal_ne_list (el : XChild) (l : List PyVal) :
    cimChildVal el ≠ PyVal.pyList l := by
  unfold cimChildVal coerceWmiText
  by_cases hnil : el.nil
  · simp [hnil]
  · simp only [hnil, if_false]
    cases el.text with
    | none => simp
    | some t =>
      by_cases hf : t = "false"
      · simp [hf]
      · by_cases ht : t = "true"
        · simp [hf, ht]
        · simp only [hf, ht, if_false]
          cases pyInt t <;> simp

/-- Appending a value to a non-list value wraps both in a list. -/
theorem cimAppend_of_ne_list {v : PyVal} (h : ∀ l, v ≠ PyVal.pyList l)
    (w : PyVal) : cimAppend v w = PyVal.pyList [v, w] := by
  cases v with
  | pyList l => exact absurd rfl (h l)
  | pyNone => rfl
  | pyBool b => rfl
  | pyInt n => rfl
  | pyStr s => rfl

/-- Folding cimAppend over a list value appends every element. -/
theorem foldl_cimAppend_pyList (vs : List PyVal) : ∀ l : List PyVal,
    vs.foldl cimAppend (PyVal.pyList l) = PyVal.pyList (l ++ vs) := by
  induction vs with
  | nil => intro l; simp
  | cons x vs ih =>
    intro l
    simp only [List.foldl_cons]
    rw [show cimAppend (PyVal.pyList l) x = PyVal.pyList (l ++ [x]) from rfl, ih]
    simp

/-! ## C6: dictify text coercion -/

/-- C6 counterexample: the text "+1" is not str(n) for any integer n
(str of a non-negative integer is bare digits, str(1) = "1"), so the claim
requires dictify to map it to the string "+1"; the code maps it to the
integer 1, because Python int() also accepts a leading sign. -/
theorem C6_plus_one_counterexample :
    dictGet (dictify [⟨"x", false, some "+1"⟩]) "x" = some (PyVal.pyInt 1) ∧
    PyVal.pyInt 1 ≠ PyVal.pyStr "+1" ∧
    pyStrInt 1 = "1" := by
  refine ⟨rfl, by simp, ?_⟩
  have h1 : natDigits (Int.natAbs 1) = [1] := by
    rw [natDigits]
    norm_num
  unfold pyStrInt
  rw [if_neg (by norm_num)]
  unfold pyStrNat
  rw [h1]
  rfl

/-- C6 amended: for a non-nil child with text t, dictify maps the name to
False/True for the exact literals "false"/"true"; otherwise to the integer
produced by Python int(t) when that parse succeeds (int() also accepts
surrounding whitespace, a leading sign, leading zeros and underscore digit
group separators - in particular str(k) coerces back to k); otherwise to
the string t. Under xsi:nil="true" the name maps to None whatever the text. -/
theorem C6_dictify_coercion (name t : String) (k : Int) :
    (t = "false" →
      dictGet (dictify [⟨name, false, some t⟩]) name = some (PyVal.pyBool false)) ∧
    (t = "true" →
      dictGet (dictify [⟨name, false, some t⟩]) name = some (PyVal.pyBool true)) ∧
    (t ≠ "false" → t ≠ "true" → pyInt t = some k →
      dictGet (dictify [⟨name, false, some t⟩]) name = some (PyVal.pyInt k)) ∧
    (t ≠ "false" → t ≠ "true" → pyInt t = Option.none →
      dictGet (dictify [⟨name, false, some t⟩]) name = some (PyVal.pyStr t)) ∧
    (dictGet (dictify [⟨name, false, some (pyStrInt k)⟩]) name
        = some (PyVal.pyInt k)) ∧
    (dictGet (dictify [⟨name, true, some t⟩]) name = some PyVal.pyNone) := by
  have hget : ∀ el : XChild, dictGet (dictify [el]) el.name
      = some (dictifyChildVal el) := by
    intro el
    show dictGet (dictSet [] el.name (dictifyChildVal el)) el.name = _
    exact dictGet_set_self [] el.name _
  have hcoerce : ∀ s : String, dictifyCoerce (some s)
      = (if s = "false" then PyVal.pyBool false
         else if s = "true" then PyVal.pyBool true
         else match pyInt s with
           | some n => PyVal.pyInt n
           | Option.none => PyVal.pyStr s) := fun s => rfl
  refine ⟨?_, ?_, ?_, ?_, ?_, ?_⟩
  · intro ht
    have h := hget ⟨name, false, some t⟩
    rw [h]
    show some (dictifyCoerce (some t)) = _
    rw [hcoerce, if_pos ht]
  · intro ht
    have h := hget ⟨name, false, some t⟩
    rw [h]
    show some (dictifyCoerce (some t)) = _
    rw [hcoerce, if_neg (by rw [ht]; decide), if_pos ht]
  · intro hf ht hp
    have h := hget ⟨name, false, some t⟩
    rw [h]
    show some (dictifyCoerce (some t)) = _
    rw [hcoerce, if_neg hf, if_neg ht, hp]
  · intro hf ht hp
    have h := hget ⟨name, false, some t⟩
    rw [h]
    show some (dictifyCoerce (some t)) = _
    rw [hcoerce, if_neg hf, if_neg ht, hp]
  · have h := hget ⟨name, false, some (pyStrInt k)⟩
    rw [h]
    show some (dictifyCoerce (some (pyStrInt k))) = _
    rw [hcoerce, if_neg (pyStrInt_ne_false k), if_neg (pyStrInt_ne_true k),
      pyInt_pyStrInt]
  · have h := hget ⟨name, true, some t⟩
    rw [h]
    rfl

/-- C6 witness: the coercion cases evaluated at concrete inputs. -/
theorem C6_dictify_coercion_witness :
    (("false" : String) = "false" ∧
      dictGet (dictify [⟨"a", false, some "false"⟩]) "a"
        = some (PyVal.pyBool false)) ∧
    (("cmd" : String) ≠ "false" ∧ ("cmd" : String) ≠ "true" ∧
      pyInt "cmd" = Option.none ∧
      dictGet (dictify [⟨"a", false, some "cmd"⟩]) "a"
        = some (PyVal.pyStr "cmd")) ∧
    (("17" : String) ≠ "false" ∧ ("17" : String) ≠ "true" ∧
      pyInt "17" = some 17 ∧
      dictGet (dictify [⟨"a", false, some "17"⟩]) "a"
        = some (PyVal.pyInt 17)) := by
  refine ⟨⟨rfl, ?_⟩, ⟨by decide, by decide, by rfl, ?_⟩,
    ⟨by decide, by decide, by rfl, ?_⟩⟩
  · exact (C6_dictify_coercion "a" "false" 0).1 rfl
  · exact (C6_dictify_coercion "a" "cmd" 0).2.2.2.1 (by decide) (by decide) (by rfl)
  · exact (C6_dictify_coercion "a" "17" 17).2.2.1 (by decide) (by decide) (by rfl)

/-! ## C7: repeated child names -/

/-- C7 counterexample: two children both named Dep; dictify (used for
Get/Invoke responses) keeps only the last coerced value instead of the
ordered list the claim requires. -/
theorem C7_dictify_overwrites_counterexample :
    dictGet (dictify [⟨"Dep", false, some "1"⟩, ⟨"Dep", false, some "2"⟩]) "Dep"
        = some (PyVal.pyInt 2) ∧
    PyVal.pyInt 2 ≠ PyVal.pyList [PyVal.pyInt 1, PyVal.pyInt 2] := by
  exact ⟨rfl, by simp⟩

/-- C7 amended: _parse_cim_element (service enumeration) accumulates the
coerced values of two or more same-name children into an ordered list, one
entry per child in document order; dictify (Get/Invoke responses) instead
maps the name to the coerced value of the last such child. -/
theorem C7_repeated_children (children : List XChild) (name : String) :
    (∀ (v w : PyVal) (vs : List PyVal),
      (children.filter (fun el => el.name == name)).map cimChildVal = v :: w :: vs →
      dictGet (parseCimElement children) name = some (PyVal.pyList (v :: w :: vs))) ∧
    (∀ el : XChild, children.reverse.find? (fun e => e.name == name) = some el →
      dictGet (dictify children) name = some (dictifyChildVal el)) := by
  constructor
  · intro v w vs hvals
    have h := parseCim_foldl_get children [] name
    unfold parseCimElement
    rw [h, hvals]
    show some ((w :: vs).foldl cimAppend v) = _
    have hv : ∀ l, v ≠ PyVal.pyList l := by
      intro l
      have hmem : v ∈ (children.filter (fun el => el.name == name)).map cimChildVal := by
        rw [hvals]; simp
      rcases List.mem_map.mp hmem with ⟨el, _, hel⟩
      rw [← hel]
      exact cimChildVal_ne_list el l
    rw [List.foldl_cons, cimAppend_of_ne_list hv w, foldl_cimAppend_pyList]
    rfl
  · intro el hel
    have h := dictify_foldl_get children [] name
    unfold dictify
    rw [h, hel]

/-- C7 witness: both dictification behaviours at a concrete repeated name. -/
theorem C7_repeated_children_witness :
    (([⟨"Dep", false, some "1"⟩, ⟨"Dep", false, some "2"⟩] :
        List XChild).filter (fun el => el.name == "Dep")).map cimChildVal
      = [PyVal.pyInt 1, PyVal.pyInt 2] ∧
    dictGet (parseCimElement
        [⟨"Dep", false, some "1"⟩, ⟨"Dep", false, some "2"⟩]) "Dep"
      = some (PyVal.pyList [PyVal.pyInt 1, PyVal.pyInt 2]) ∧
    dictGet (dictify [⟨"Dep", false, some "1"⟩, ⟨"Dep", false, some "2"⟩]) "Dep"
      = some (PyVal.pyInt 2) := by
  refine ⟨rfl, ?_, ?_⟩
  · exact (C7_repeated_children
      [⟨"Dep", false, some "1"⟩, ⟨"Dep", false, some "2"⟩] "Dep").1
      (PyVal.pyInt 1) (PyVal.pyInt 2) [] rfl
  · exact (C7_repeated_children
      [⟨"Dep", false, some "1"⟩, ⟨"Dep", false, some "2"⟩] "Dep").2
      ⟨"Dep", false, some "2"⟩ rfl

/-! ## Receive loop lemmas -/

/-- Processing harmless events leaves every flag and the return code alone. -/
theorem processEvents_harmless (evs : List ReceiveEvent) :
    ∀ st : ReceiveLoopState, (∀ ev ∈ evs, harmlessEvent ev) →
    (processEvents st evs).doneFlag = st.doneFlag ∧
    (processEvents st evs).stdoutFinished = st.stdoutFinished ∧
    (processEvents st evs).stderrFinished = st.stderrFinished ∧
    (processEvents st evs).returncode = st.returncode := by
  induction evs with
  | nil => intro st _; exact ⟨rfl, rfl, rfl, rfl⟩
  | cons ev rest ih =>
    intro st h
    rcases h ev (by simp) with ⟨nm, cid, content, rfl⟩
    have hrest := fun e he => h e (List.mem_cons_of_mem _ he)
    by_cases h1 : nm = "stdout"
    · simpa [processEvents, h1] using ih _ hrest
    · by_cases h2 : nm = "stderr"
      · simpa [processEvents, h1, h2] using ih _ hrest
      · simpa [processEvents, h1, h2] using ih _ hrest

/-- Processing splits over append when the first part is harmless (no
CommandState event breaks out of the iteration). -/
theorem processEvents_append_harmless (u v : List ReceiveEvent) :
    ∀ st : ReceiveLoopState, (∀ ev ∈ u, harmlessEvent ev) →
    processEvents st (u ++ v) = processEvents (processEvents st u) v := by
  induction u with
  | nil => intro st _; rfl
  | cons ev rest ih =>
    intro st h
    rcases h ev (by simp) with ⟨nm, cid, content, rfl⟩
    have hrest := fun e he => h e (List.mem_cons_of_mem _ he)
    simp only [List.cons_append, processEvents]
    exact ih _ hrest

/-- Processing a Done command-state event sets done and records the code. -/
theorem processEvents_done (st : ReceiveLoopState) (e : Option Int) :
    processEvents st [ReceiveEvent.commandState commandStateDone e]
      = { st with doneFlag := true, doneSeen := true, returncode := pyOrInt e 0 } := by
  simp [processEvents]

/-- Python: (some k) or 0 is k, and None or 0 is 0. -/
theorem pyOrInt_some (k : Int) : pyOrInt (some k) 0 = k := by
  by_cases hk : k = 0 <;> simp [pyOrInt, hk]

/-! ## C4: operation-timeout fault absorption -/

/-- C4: a Receive fault that is a WSManFaultError with wsman code 2150858793
is absorbed: the loop consumes the round and continues into the next Receive
with an otherwise identical outcome, and no such fault is ever stored in the
exit-code future; any other SOAP or WSMan fault terminates the loop with the
future set to that exception; and the future is set at most once. -/
theorem C4_timeout_fault_absorption :
    (∀ (f : SOAPFault) (rest : List ReceiveRound) (st : ReceiveLoopState),
      isOperationTimeoutFault f = true → st.doneFlag = false →
      receiveLoop (ReceiveRound.fault f :: rest) st
        = { receiveLoop rest st with rounds := (receiveLoop rest st).rounds + 1 }) ∧
    (∀ (rounds : List ReceiveRound) (st : ReceiveLoopState) (f : SOAPFault),
      (receiveLoop rounds st).future = some (Except.error f) →
      isOperationTimeoutFault f = false) ∧
    (∀ (f : SOAPFault) (rest : List ReceiveRound) (st : ReceiveLoopState),
      isOperationTimeoutFault f = false → st.doneFlag = false →
      receiveLoop (ReceiveRound.fault f :: rest) st
        = { future := some (Except.error f), futureSets := 1, rounds := 1,
            awaitingReceive := false, state := st }) ∧
    (∀ (rounds : List ReceiveRound) (st : ReceiveLoopState),
      (receiveLoop rounds st).futureSets ≤ 1) := by
  refine ⟨?_, ?_, ?_, ?_⟩
  · intro f rest st hf hdone
    simp [receiveLoop, hdone, hf]
  · intro rounds
    induction rounds with
    | nil =>
      intro st f h
      by_cases hdone : st.doneFlag <;> simp [receiveLoop, hdone] at h
    | cons r rest ih =>
      intro st f h
      by_cases hdone : st.doneFlag
      · simp [receiveLoop, hdone] at h
      · cases r with
        | cancelled =>
          simp only [receiveLoop, hdone, if_false] at h
          exact ih st f h
        | fault f2 =>
          by_cases hf2 : isOperationTimeoutFault f2 = true
          · simp only [receiveLoop, hdone, if_false, hf2, if_true] at h
            exact ih st f h
          · simp [receiveLoop, hdone, hf2] at h
            rw [← h]
            simpa using hf2
        | events evs =>
          simp only [receiveLoop, hdone, if_false] at h
          exact ih _ f h
  · intro f rest st hf hdone
    simp [receiveLoop, hdone, hf]
  · intro rounds
    induction rounds with
    | nil =>
      intro st
      by_cases hdone : st.doneFlag <;> simp [receiveLoop, hdone]
    | cons r rest ih =>
      intro st
      by_cases hdone : st.doneFlag
      · simp [receiveLoop, hdone]
      · cases r with
        | cancelled => simpa [receiveLoop, hdone] using ih st
        | fault f2 =>
          by_cases hf2 : isOperationTimeoutFault f2 = true
          · simpa [receiveLoop, hdone, hf2] using ih st
          · simp [receiveLoop, hdone, hf2]
        | events evs => simpa [receiveLoop, hdone] using ih _

/-- C4 witness: a concrete non-timeout WSMan fault terminates the loop with
the future set to it, and a concrete timeout fault is absorbed. -/
theorem C4_timeout_fault_absorption_witness :
    (isOperationTimeoutFault
        ⟨true, some "s:Receiver", some "access denied", some "5"⟩ = false ∧
      initReceiveLoopState.doneFlag = false ∧
      receiveLoop
          [ReceiveRound.fault ⟨true, some "s:Receiver", some "access denied", some "5"⟩]
          initReceiveLoopState
        = { future := some (Except.error
              ⟨true, some "s:Receiver", some "access denied", some "5"⟩),
            futureSets := 1, rounds := 1, awaitingReceive := false,
            state := initReceiveLoopState }) ∧
    (isOperationTimeoutFault
        ⟨true, some "s:Receiver", some "timed out", some "2150858793"⟩ = true ∧
      receiveLoop
          [ReceiveRound.fault ⟨true, some "s:Receiver", some "timed out", some "2150858793"⟩]
          initReceiveLoopState
        = { receiveLoop [] initReceiveLoopState with
            rounds := (receiveLoop [] initReceiveLoopState).rounds + 1 }) := by
  refine ⟨⟨by decide, rfl, ?_⟩, ⟨by decide, ?_⟩⟩
  · exact C4_timeout_fault_absorption.2.2.1
      ⟨true, some "s:Receiver", some "access denied", some "5"⟩ [] initReceiveLoopState
      (by decide) rfl
  · exact C4_timeout_fault_absorption.1
      ⟨true, some "s:Receiver", some "timed out", some "2150858793"⟩ [] initReceiveLoopState
      (by decide) rfl

/-- Non-terminal rounds preserve the future of the remaining run: the loop
continues with some state whose flags are still clear. -/
theorem receiveLoop_pre_future (pre : List ReceiveRound) :
    ∀ st : ReceiveLoopState, (∀ r ∈ pre, nonTerminalRound r) →
    st.doneFlag = false → st.stdoutFinished = false → st.stderrFinished = false →
    ∀ tail : List ReceiveRound, ∃ st2 : ReceiveLoopState,
      st2.doneFlag = false ∧ st2.stdoutFinished = false ∧
      st2.stderrFinished = false ∧
      (receiveLoop (pre ++ tail) st).future = (receiveLoop tail st2).future := by
  induction pre with
  | nil =>
    intro st _ hd hso hse tail
    exact ⟨st, hd, hso, hse, rfl⟩
  | cons r rest ih =>
    intro st h hd hso hse tail
    have hrest := fun x hx => h x (List.mem_cons_of_mem _ hx)
    rcases h r (by simp) with hc | ⟨f, rfl, hf⟩ | ⟨evs, rfl, hevs⟩
    · subst hc
      rcases ih st hrest hd hso hse tail with ⟨st2, h1, h2, h3, h4⟩
      refine ⟨st2, h1, h2, h3, ?_⟩
      simp only [List.cons_append, receiveLoop, hd, if_false]
      exact h4
    · rcases ih st hrest hd hso hse tail with ⟨st2, h1, h2, h3, h4⟩
      refine ⟨st2, h1, h2, h3, ?_⟩
      simp only [List.cons_append, receiveLoop, hd, if_false, hf, if_true]
      exact h4
    · have hp := processEvents_harmless evs st hevs
      have hd1 : (processEvents st evs).doneFlag = false := by rw [hp.1, hd]
      have hso1 : (processEvents st evs).stdoutFinished = false := by
        rw [hp.2.1, hso]
      have hse1 : (processEvents st evs).stderrFinished = false := by
        rw [hp.2.2.1, hse]
      rcases ih (processEvents st evs) hrest hd1 hso1 hse1 tail
        with ⟨st2, h1, h2, h3, h4⟩
      refine ⟨st2, h1, h2, h3, ?_⟩
      simp only [List.cons_append, receiveLoop, hd, if_false, hso1, hse1,
        Bool.and_false, if_false]
      exact h4

/-- A final round whose events end with CommandState/Done sets the future to
the recorded exit code. -/
theorem receiveLoop_final_done (st : ReceiveLoopState)
    (hd : st.doneFlag = false) (evs : List ReceiveEvent)
    (hevs : ∀ ev ∈ evs, harmlessEvent ev) (e : Option Int) :
    (receiveLoop [ReceiveRound.events
        (evs ++ [ReceiveEvent.commandState commandStateDone e])] st).future
      = some (Except.ok (pyOrInt e 0)) := by
  have hsplit := processEvents_append_harmless evs
    [ReceiveEvent.commandState commandStateDone e] st hevs
  rw [processEvents_done] at hsplit
  simp only [receiveLoop, hd, if_false, hsplit]
  by_cases hfin : (processEvents st evs).stdoutFinished = true
      ∧ (processEvents st evs).stderrFinished = true
  · simp [hfin]
  · simp [hfin]

/-- C5: if the receive loop, after any number of absorbed rounds and
harmless stream chunks, observes a CommandState/Done event carrying exit
code k, the exit-code future (observed by Process.wait) is set to k; if the
Done event carries no ExitCode element, it is set to 0. -/
theorem C5_exit_code_propagation (pre : List ReceiveRound)
    (evs : List ReceiveEvent) (k : Int)
    (hpre : ∀ r ∈ pre, nonTerminalRound r)
    (hevs : ∀ ev ∈ evs, harmlessEvent ev) :
    (receiveLoop (pre ++ [ReceiveRound.events
        (evs ++ [ReceiveEvent.commandState commandStateDone (some k)])])
      initReceiveLoopState).future = some (Except.ok k) ∧
    (receiveLoop (pre ++ [ReceiveRound.events
        (evs ++ [ReceiveEvent.commandState commandStateDone Option.none])])
      initReceiveLoopState).future = some (Except.ok 0) := by
  constructor
  · rcases receiveLoop_pre_future pre initReceiveLoopState hpre rfl rfl rfl
      [ReceiveRound.events
        (evs ++ [ReceiveEvent.commandState commandStateDone (some k)])]
      with ⟨st2, h1, _, _, h4⟩
    rw [h4, receiveLoop_final_done st2 h1 evs hevs (some k), pyOrInt_some]
  · rcases receiveLoop_pre_future pre initReceiveLoopState hpre rfl rfl rfl
      [ReceiveRound.events
        (evs ++ [ReceiveEvent.commandState commandStateDone Option.none])]
      with ⟨st2, h1, _, _, h4⟩
    rw [h4, receiveLoop_final_done st2 h1 evs hevs Option.none]
    rfl

/-- C5 witness: a timeout round, one stdout chunk, then Done with code 7. -/
theorem C5_exit_code_propagation_witness :
    (∀ r ∈ [ReceiveRound.fault ⟨true, some "s:Receiver", some "timed out",
        some "2150858793"⟩], nonTerminalRound r) ∧
    (∀ ev ∈ [ReceiveEvent.stream "stdout" "C1" (bstr "out") false],
        harmlessEvent ev) ∧
    (receiveLoop
        ([ReceiveRound.fault ⟨true, some "s:Receiver", some "timed out",
            some "2150858793"⟩]
          ++ [ReceiveRound.events
              ([ReceiveEvent.stream "stdout" "C1" (bstr "out") false]
                ++ [ReceiveEvent.commandState commandStateDone (some 7)])])
      initReceiveLoopState).future = some (Except.ok 7) := by
  have hpre : ∀ r ∈ [ReceiveRound.fault ⟨true, some "s:Receiver",
      some "timed out", some "2150858793"⟩], nonTerminalRound r := by
    intro r hr
    simp only [List.mem_singleton] at hr
    subst hr
    exact Or.inr (Or.inl ⟨_, rfl, by decide⟩)
  have hevs : ∀ ev ∈ [ReceiveEvent.stream "stdout" "C1" (bstr "out") false],
      harmlessEvent ev := by
    intro ev hev
    simp only [List.mem_singleton] at hev
    subst hev
    exact ⟨"stdout", "C1", bstr "out", rfl⟩
  exact ⟨hpre, hevs,
    (C5_exit_code_propagation
      [ReceiveRound.fault ⟨true, some "s:Receiver", some "timed out",
          some "2150858793"⟩]
      [ReceiveEvent.stream "stdout" "C1" (bstr "out") false] 7 hpre hevs).1⟩

/-! ## Enumeration generator lemmas -/

/-- With no consumer budget the scan yields every item, adopts the last
context token, records EndOfSequence and never abandons. -/
theorem scanChildren_none (children : List EnumChild) : ∀ (nctx : Option String)
    (fin : Bool), scanChildren children nctx fin Option.none
      = (enumItems children, lastCtx children nctx, fin || hasEos children,
         false, Option.none) := by
  induction children with
  | nil => intro nctx fin; simp [scanChildren, enumItems, lastCtx, hasEos]
  | cons c rest ih =>
    intro nctx fin
    cases c with
    | ctxTok t =>
      simp only [scanChildren, ih (some t) fin, enumItems, lastCtx]
      simp [hasEos]
    | eos =>
      simp only [scanChildren, ih nctx true, enumItems, lastCtx]
      simp [hasEos]
    | items xs =>
      simp only [scanChildren, ih nctx fin, enumItems, lastCtx]
      simp [hasEos]

/-- A context adopted before the scan survives it as some token. -/
theorem lastCtx_some (children : List EnumChild) : ∀ (t : String),
    lastCtx children (some t) ≠ Option.none := by
  induction children with
  | nil => intro t; simp [lastCtx]
  | cons c rest ih =>
    intro t
    cases c with
    | ctxTok t2 => simpa [lastCtx] using ih t2
    | eos => simpa [lastCtx] using ih t
    | items xs => simpa [lastCtx] using ih t

/-- A scan that starts finished stays finished, abandoned or not. -/
theorem scanChildren_fin_true (children : List EnumChild) :
    ∀ (nctx : Option String) (b : Option Nat),
    (scanChildren children nctx true b).2.2.1 = true := by
  induction children with
  | nil => intro nctx b; simp [scanChildren]
  | cons c rest ih =>
    intro nctx b
    cases c with
    | ctxTok t => simpa [scanChildren] using ih (some t) b
    | eos => simpa [scanChildren] using ih nctx b
    | items xs =>
      cases b with
      | none =>
        simp only [scanChildren]
        rcases h : scanChildren rest nctx true Option.none with ⟨ys, n2, f2, ab, b2⟩
        have := ih nctx Option.none
        rw [h] at this
        simpa using this
      | some bv =>
        simp only [scanChildren]
        by_cases hlt : xs.length < bv
        · simp only [hlt, if_true]
          rcases h : scanChildren rest nctx true (some (bv - xs.length))
            with ⟨ys, n2, f2, ab, b2⟩
          have := ih nctx (some (bv - xs.length))
          rw [h] at this
          simpa using this
        · simp [hlt]

/-- A non-abandoned scan of a response containing EndOfSequence finishes. -/
theorem scanChildren_eos (children : List EnumChild) :
    ∀ (nctx : Option String) (fin : Bool) (b : Option Nat),
    hasEos children = true →
    (scanChildren children nctx fin b).2.2.2.1 = false →
    (scanChildren children nctx fin b).2.2.1 = true := by
  induction children with
  | nil => intro nctx fin b h _; simp [hasEos] at h
  | cons c rest ih =>
    intro nctx fin b h hab
    cases c with
    | ctxTok t =>
      have h2 : hasEos rest = true := by simpa [hasEos] using h
      exact ih (some t) fin b h2 (by simpa [scanChildren] using hab)
    | eos => exact scanChildren_fin_true rest nctx b
    | items xs =>
      have h2 : hasEos rest = true := by simpa [hasEos] using h
      cases b with
      | none =>
        simp only [scanChildren] at hab ⊢
        rcases hs : scanChildren rest nctx fin Option.none
          with ⟨ys, n2, f2, ab, b2⟩
        have := ih nctx fin Option.none h2
        rw [hs] at this hab
        exact this hab
      | some bv =>
        by_cases hlt : xs.length < bv
        · simp only [scanChildren, hlt, if_true] at hab ⊢
          rcases hs : scanChildren rest nctx fin (some (bv - xs.length))
            with ⟨ys, n2, f2, ab, b2⟩
          have := ih nctx fin (some (bv - xs.length)) h2
          rw [hs] at this hab
          exact this hab
        · simp [scanChildren, hlt] at hab

/-- Generator step when the consumer abandoned mid-scan: the finally block
releases the previously adopted context unless the scan had finished. -/
theorem enumGo_abandoned (resp : List EnumChild) (rest : List (List EnumChild))
    (context : Option String) (budget : Option Nat) (accItems : List Nat)
    (accPulls : List String) (ys : List Nat) (nctx : Option String)
    (fin : Bool) (budget2 : Option Nat)
    (hs : scanChildren resp context false budget = (ys, nctx, fin, true, budget2)) :
    enumGo resp rest context budget accItems accPulls
      = { yielded := accItems ++ ys, pulls := accPulls,
          released := if fin then Option.none else context,
          protoError := false, pendingPull := false } := by
  conv_lhs => rw [enumGo.eq_def]
  rw [hs]
  rfl

/-- Generator step when no context was acquired: ProtocolError is raised and
the finally block releases nothing (the previous context was also absent). -/
theorem enumGo_noctx (resp : List EnumChild) (rest : List (List EnumChild))
    (context : Option String) (budget : Option Nat) (accItems : List Nat)
    (accPulls : List String) (ys : List Nat) (fin : Bool) (budget2 : Option Nat)
    (hs : scanChildren resp context false budget
      = (ys, Option.none, fin, false, budget2)) :
    enumGo resp rest context budget accItems accPulls
      = { yielded := accItems ++ ys, pulls := accPulls,
          released := if fin then Option.none else context,
          protoError := true, pendingPull := false } := by
  conv_lhs => rw [enumGo.eq_def]
  rw [hs]
  rfl

/-- Generator step on EndOfSequence: the loop stops with no further Pull and
no Release. -/
theorem enumGo_finished (resp : List EnumChild) (rest : List (List EnumChild))
    (context : Option String) (budget : Option Nat) (accItems : List Nat)
    (accPulls : List String) (ys : List Nat) (c : String) (budget2 : Option Nat)
    (hs : scanChildren resp context false budget
      = (ys, some c, true, false, budget2)) :
    enumGo resp rest context budget accItems accPulls
      = { yielded := accItems ++ ys, pulls := accPulls,
          released := Option.none, protoError := false, pendingPull := false } := by
  conv_lhs => rw [enumGo.eq_def]
  rw [hs]
  rfl

/-- Generator step that issues a Pull carrying the new context and continues
with the next response. -/
theorem enumGo_continue (resp : List EnumChild) (r2 : List EnumChild)
    (rest2 : List (List EnumChild)) (context : Option String)
    (budget : Option Nat) (accItems : List Nat) (accPulls : List String)
    (ys : List Nat) (c : String) (budget2 : Option Nat)
    (hs : scanChildren resp context false budget
      = (ys, some c, false, false, budget2)) :
    enumGo resp (r2 :: rest2) context budget accItems accPulls
      = enumGo r2 rest2 (some c) budget2 (accItems ++ ys) (accPulls ++ [c]) := by
  conv_lhs => rw [enumGo.eq_def]
  rw [hs]
  rfl

/-- Generator step that issues a Pull for which no response is supplied. -/
theorem enumGo_pending (resp : List EnumChild) (context : Option String)
    (budget : Option Nat) (accItems : List Nat) (accPulls : List String)
    (ys : List Nat) (c : String) (budget2 : Option Nat)
    (hs : scanChildren resp context false budget
      = (ys, some c, false, false, budget2)) :
    enumGo resp [] context budget accItems accPulls
      = { yielded := accItems ++ ys, pulls := accPulls ++ [c],
          released := Option.none, protoError := false, pendingPull := true } := by
  conv_lhs => rw [enumGo.eq_def]
  rw [hs]
  rfl

/-- With no EnumerationContext child the scan keeps the incoming context. -/
theorem lastCtx_noCtx (children : List EnumChild) :
    ∀ nctx : Option String, hasCtx children = false →
    lastCtx children nctx = nctx := by
  induction children with
  | nil => intro nctx _; rfl
  | cons c rest ih =>
    intro nctx h
    cases c with
    | ctxTok t => simp [hasCtx] at h
    | eos =>
      have h2 : hasCtx rest = false := by simpa [hasCtx] using h
      simpa [lastCtx] using ih nctx h2
    | items xs =>
      have h2 : hasCtx rest = false := by simpa [hasCtx] using h
      simpa [lastCtx] using ih nctx h2

/-- The scan result for a run with no consumer budget, with fin reduced. -/
theorem scanChildren_none_start (resp : List EnumChild) (ctx : Option String) :
    scanChildren resp ctx false Option.none
      = (enumItems resp, lastCtx resp ctx, hasEos resp, false, Option.none) := by
  rw [scanChildren_none]
  simp

/-- Without abandonment the finally block never sends Release: a run driven
with no consumer budget has released = None, whatever the responses. -/
theorem enumGo_none_released (rest : List (List EnumChild)) :
    ∀ (resp : List EnumChild) (ctx : Option String) (acc : List Nat)
      (pulls : List String),
    (enumGo resp rest ctx Option.none acc pulls).released = Option.none := by
  induction rest with
  | nil =>
    intro resp ctx acc pulls
    cases hc : lastCtx resp ctx with
    | none =>
      have hctx : ctx = Option.none := by
        cases ctx with
        | none => rfl
        | some t => exact absurd hc (lastCtx_some resp t)
      subst hctx
      rw [enumGo_noctx resp [] Option.none Option.none acc pulls _ _ _
        (by rw [scanChildren_none_start, hc])]
      by_cases h : hasEos resp = true <;> simp [h]
    | some c =>
      by_cases hfin : hasEos resp = true
      · rw [enumGo_finished resp [] ctx Option.none acc pulls _ c _
          (by rw [scanChildren_none_start, hc, hfin])]
      · rw [enumGo_pending resp ctx Option.none acc pulls (enumItems resp) c
          Option.none (by rw [scanChildren_none_start, hc]; simp [hfin])]
  | cons r2 rest2 ih =>
    intro resp ctx acc pulls
    cases hc : lastCtx resp ctx with
    | none =>
      have hctx : ctx = Option.none := by
        cases ctx with
        | none => rfl
        | some t => exact absurd hc (lastCtx_some resp t)
      subst hctx
      rw [enumGo_noctx resp (r2 :: rest2) Option.none Option.none acc pulls _ _ _
        (by rw [scanChildren_none_start, hc])]
      by_cases h : hasEos resp = true <;> simp [h]
    | some c =>
      by_cases hfin : hasEos resp = true
      · rw [enumGo_finished resp (r2 :: rest2) ctx Option.none acc pulls _ c _
          (by rw [scanChildren_none_start, hc, hfin])]
      · rw [enumGo_continue resp r2 rest2 ctx Option.none acc pulls
          (enumItems resp) c Option.none
          (by rw [scanChildren_none_start, hc]; simp [hfin])]
        exact ih r2 (some c) (acc ++ enumItems resp) (pulls ++ [c])

/-- A first response containing EndOfSequence stops the run: no Pull is
issued and nothing is released, whatever the consumer does. -/
theorem enumRun_eos_stops (first : List EnumChild)
    (rest : List (List EnumChild)) (b : Option Nat)
    (heos : hasEos first = true) :
    (enumRun first rest b).pulls = [] ∧
    (enumRun first rest b).released = Option.none := by
  unfold enumRun
  rcases hscan : scanChildren first Option.none false b
    with ⟨ys, nctx, fin, ab, b2⟩
  cases hab : ab with
  | true =>
    rw [hab] at hscan
    rw [enumGo_abandoned first rest Option.none b [] [] ys nctx fin b2 hscan]
    constructor
    · rfl
    · by_cases hfin : fin = true <;> simp [hfin]
  | false =>
    have hfin : fin = true := by
      have := scanChildren_eos first Option.none false b heos
        (by rw [hscan, hab])
      rw [hscan] at this
      exact this
    subst hfin
    rw [hab] at hscan
    cases nctx with
    | none =>
      rw [enumGo_noctx first rest Option.none b [] [] ys true b2 hscan]
      exact ⟨rfl, rfl⟩
    | some c =>
      rw [enumGo_finished first rest Option.none b [] [] ys c b2 hscan]
      exact ⟨rfl, rfl⟩

/-- Scan of a one-item pull response with more than one item of budget left:
the item is yielded, the context adopted, the budget decremented. -/
theorem scan_mkEnumResp_big (p : String × Nat) (nctx : Option String)
    (fin : Bool) (b : Nat) (hb : 1 < b) :
    scanChildren (mkEnumResp p) nctx fin (some b)
      = ([p.2], some p.1, fin, false, some (b - 1)) := by
  show scanChildren [EnumChild.ctxTok p.1, EnumChild.items [p.2]] nctx fin (some b) = _
  rw [scanChildren.eq_def]
  simp only
  rw [scanChildren.eq_def]
  simp only
  have h1 : ([p.2] : List Nat).length < b := by simpa using hb
  simp only [h1, if_true]
  rw [scanChildren.eq_def]
  rfl

/-- Scan of a one-item pull response with exactly one item of budget left:
the item is yielded and the consumer abandons the generator at that yield. -/
theorem scan_mkEnumResp_one (p : String × Nat) (nctx : Option String)
    (fin : Bool) :
    scanChildren (mkEnumResp p) nctx fin (some 1)
      = ([p.2], some p.1, fin, true, some 0) := by
  show scanChildren [EnumChild.ctxTok p.1, EnumChild.items [p.2]] nctx fin (some 1) = _
  rw [scanChildren.eq_def]
  simp only
  rw [scanChildren.eq_def]
  simp only
  have h1 : ¬ ([p.2] : List Nat).length < 1 := by simp
  simp [h1]

/-- A consumer that takes one item per response and abandons the generator
at the yield inside the last response: each fully processed response except
the last contributes one Pull, and the finally block releases the context
adopted from the last fully processed response (the incoming context when
none was processed). -/
theorem enumGo_chain (ps : List (String × Nat)) :
    ∀ (cur : String × Nat) (ctx : Option String) (acc : List Nat)
      (pulls : List String),
    enumGo (mkEnumResp cur) (ps.map mkEnumResp) ctx (some (ps.length + 1))
        acc pulls
      = { yielded := acc ++ cur.2 :: ps.map Prod.snd,
          pulls := pulls ++ (cur :: ps).dropLast.map Prod.fst,
          released := lastSome ((cur :: ps).dropLast.map Prod.fst) ctx,
          protoError := false, pendingPull := false } := by
  induction ps with
  | nil =>
    intro cur ctx acc pulls
    simp only [List.map_nil, List.length_nil, Nat.zero_add]
    rw [enumGo_abandoned (mkEnumResp cur) [] ctx (some 1) acc pulls
      [cur.2] (some cur.1) false (some 0) (scan_mkEnumResp_one cur ctx false)]
    simp [lastSome]
  | cons p ps2 ih =>
    intro cur ctx acc pulls
    simp only [List.map_cons, List.length_cons]
    have hb : 1 < ps2.length + 1 + 1 := by omega
    rw [enumGo_continue (mkEnumResp cur) (mkEnumResp p) (ps2.map mkEnumResp)
      ctx (some (ps2.length + 1 + 1)) acc pulls [cur.2] cur.1
      (some (ps2.length + 1 + 1 - 1)) (scan_mkEnumResp_big cur ctx false _ hb)]
    have hbud : ps2.length + 1 + 1 - 1 = ps2.length + 1 := by omega
    rw [hbud, ih p (some cur.1) (acc ++ [cur.2]) (pulls ++ [cur.1])]
    have hdl : (cur :: p :: ps2).dropLast = cur :: (p :: ps2).dropLast := rfl
    rw [hdl]
    simp only [List.map_cons]
    have hls : lastSome (cur.1 :: (p :: ps2).dropLast.map Prod.fst) ctx
        = lastSome ((p :: ps2).dropLast.map Prod.fst) (some cur.1) := rfl
    rw [hls]
    simp [List.append_assoc]

/-- lastSome of a mapped nonempty list is the image of its last element. -/
theorem lastSome_map_fst (l : List (String × Nat)) :
    ∀ (h : l ≠ []) (d : Option String),
    lastSome (l.map Prod.fst) d = some (l.getLast h).1 := by
  induction l with
  | nil => intro h; exact absurd rfl h
  | cons a t ih =>
    intro h d
    cases t with
    | nil => rfl
    | cons b t2 =>
      have hne : b :: t2 ≠ [] := by simp
      show lastSome ((b :: t2).map Prod.fst) (some a.1) = _
      rw [ih hne (some a.1)]
      rw [List.getLast_cons hne]

/-- dropLast of a list with one element appended. -/
theorem dropLast_append_singleton (l : List (String × Nat)) (a : String × Nat) :
    (l ++ [a]).dropLast = l := by
  simp

/-- Once a response containing EndOfSequence is being processed, no further
Pull is issued whatever the consumer does; and when the consumer does not
abandon the generator before the EndOfSequence child is scanned, nothing is
released. -/
theorem enumGo_eos_stops (resp : List EnumChild) (rest : List (List EnumChild))
    (context : Option String) (budget : Option Nat) (acc : List Nat)
    (pulls : List String) (heos : hasEos resp = true) :
    (enumGo resp rest context budget acc pulls).pulls = pulls ∧
    ((scanChildren resp context false budget).2.2.2.1 = false →
      (enumGo resp rest context budget acc pulls).released = Option.none) := by
  rcases hscan : scanChildren resp context false budget with ⟨ys, nctx, fin, ab, b2⟩
  cases hab : ab with
  | true =>
    rw [hab] at hscan
    rw [enumGo_abandoned resp rest context budget acc pulls ys nctx fin b2 hscan]
    refine ⟨rfl, fun habs => ?_⟩
    simp at habs
  | false =>
    rw [hab] at hscan
    have hfin : fin = true := by
      have := scanChildren_eos resp context false budget heos (by rw [hscan])
      rw [hscan] at this
      exact this
    subst hfin
    cases nctx with
    | none =>
      rw [enumGo_noctx resp rest context budget acc pulls ys true b2 hscan]
      exact ⟨rfl, fun _ => by simp⟩
    | some c =>
      rw [enumGo_finished resp rest context budget acc pulls ys c b2 hscan]
      exact ⟨rfl, fun _ => rfl⟩

/-- A fully processed prefix of responses moves the generator to the state
recorded by chainRun: the run over the prefix followed by further responses
equals the run on the remaining responses from that state. -/
theorem chainRun_sound (rs : List (List EnumChild)) :
    ∀ (next : List EnumChild) (rest : List (List EnumChild))
      (ctx : Option String) (budget : Option Nat) (acc : List Nat)
      (pulls : List String) (ctx2 : Option String) (b2 : Option Nat)
      (acc2 : List Nat) (pulls2 : List String),
    chainRun rs ctx budget acc pulls = some (ctx2, b2, acc2, pulls2) →
    enumGo ((rs ++ next :: rest).headD []) ((rs ++ next :: rest).tail)
        ctx budget acc pulls
      = enumGo next rest ctx2 b2 acc2 pulls2 := by
  induction rs with
  | nil =>
    intro next rest ctx budget acc pulls ctx2 b2 acc2 pulls2 h
    simp only [chainRun, Option.some.injEq, Prod.mk.injEq] at h
    obtain ⟨h1, h2, h3, h4⟩ := h
    subst h1
    subst h2
    subst h3
    subst h4
    simp
  | cons r0 rs2 ih =>
    intro next rest ctx budget acc pulls ctx2 b2 acc2 pulls2 h
    rcases hscan : scanChildren r0 ctx false budget with ⟨ys, nctx, fin, ab, bb⟩
    cases nctx with
    | none => simp [chainRun, hscan] at h
    | some c =>
      cases fin with
      | true => simp [chainRun, hscan] at h
      | false =>
        cases ab with
        | true => simp [chainRun, hscan] at h
        | false =>
          simp only [chainRun, hscan] at h
          obtain ⟨r2, rest2, hcons⟩ :
              ∃ r2 rest2, rs2 ++ next :: rest = r2 :: rest2 := by
            cases rs2 with
            | nil => exact ⟨next, rest, rfl⟩
            | cons a t => exact ⟨a, t ++ next :: rest, rfl⟩
          have hstep := enumGo_continue r0 r2 rest2 ctx budget acc pulls ys c bb hscan
          simp only [List.cons_append, List.headD_cons, List.tail_cons]
          rw [hcons, hstep]
          have hrec := ih next rest (some c) bb (acc ++ ys) (pulls ++ [c])
            ctx2 b2 acc2 pulls2 h
          rw [hcons] at hrec
          simpa using hrec

/-- A chain started on an adopted context keeps some adopted context. -/
theorem chainRun_some_ctx (rs : List (List EnumChild)) :
    ∀ (t0 : String) (budget : Option Nat) (acc : List Nat)
      (pulls : List String) (ctx2 : Option String) (b2 : Option Nat)
      (acc2 : List Nat) (pulls2 : List String),
    chainRun rs (some t0) budget acc pulls = some (ctx2, b2, acc2, pulls2) →
    ∃ t, ctx2 = some t := by
  induction rs with
  | nil =>
    intro t0 budget acc pulls ctx2 b2 acc2 pulls2 h
    simp only [chainRun, Option.some.injEq, Prod.mk.injEq] at h
    exact ⟨t0, h.1.symm⟩
  | cons r0 rs2 ih =>
    intro t0 budget acc pulls ctx2 b2 acc2 pulls2 h
    rcases hscan : scanChildren r0 (some t0) false budget with ⟨ys, nctx, fin, ab, bb⟩
    cases nctx with
    | none => simp [chainRun, hscan] at h
    | some c =>
      cases fin with
      | true => simp [chainRun, hscan] at h
      | false =>
        cases ab with
        | true => simp [chainRun, hscan] at h
        | false =>
          simp only [chainRun, hscan] at h
          exact ih c bb (acc ++ ys) (pulls ++ [c]) ctx2 b2 acc2 pulls2 h

/-- A nonempty fully processed prefix always leaves an adopted context. -/
theorem chainRun_cons_ctx (r0 : List EnumChild) (rs2 : List (List EnumChild))
    (ctx0 : Option String) (budget : Option Nat) (acc : List Nat)
    (pulls : List String) (ctx2 : Option String) (b2 : Option Nat)
    (acc2 : List Nat) (pulls2 : List String)
    (h : chainRun (r0 :: rs2) ctx0 budget acc pulls = some (ctx2, b2, acc2, pulls2)) :
    ∃ t, ctx2 = some t := by
  rcases hscan : scanChildren r0 ctx0 false budget with ⟨ys, nctx, fin, ab, bb⟩
  cases nctx with
  | none => simp [chainRun, hscan] at h
  | some c =>
    cases fin with
    | true => simp [chainRun, hscan] at h
    | false =>
      cases ab with
      | true => simp [chainRun, hscan] at h
      | false =>
        simp only [chainRun, hscan] at h
        exact chainRun_some_ctx rs2 c bb (acc ++ ys) (pulls ++ [c])
          ctx2 b2 acc2 pulls2 h

/-! ## C3: enumeration termination and release -/

/-- C3 counterexample: the first response adopts context A; the second
response carries context B (scanned into next_context before its Items are
yielded) and the consumer abandons the generator at the second item overall,
i.e. at the yield inside the second response. The last observed
EnumerationContext is B, but the finally block sends Release carrying A,
the context variable not yet having been reassigned. -/
theorem C3_release_not_last_observed_counterexample :
    enumRun [EnumChild.ctxTok "A", EnumChild.items [1]]
        [[EnumChild.ctxTok "B", EnumChild.items [2, 3]]] (some 2)
      = { yielded := [1, 2], pulls := ["A"], released := some "A",
          protoError := false, pendingPull := false } ∧
    ("A" : String) ≠ "B" := by
  constructor
  · unfold enumRun
    rw [enumGo_continue [EnumChild.ctxTok "A", EnumChild.items [1]]
      [EnumChild.ctxTok "B", EnumChild.items [2, 3]] [] Option.none (some 2)
      [] [] [1] "A" (some 1) (by decide)]
    rw [enumGo_abandoned [EnumChild.ctxTok "B", EnumChild.items [2, 3]] []
      (some "A") (some 1) ([] ++ [1]) ([] ++ ["A"]) [2] (some "B") false
      (some 0) (by decide)]
    rfl
  · decide

/-- C3 (amended): (i) once a response containing EndOfSequence is being
processed, no further Pull request is issued whatever the consumer does, and
when the scan is not abandoned before the EndOfSequence child nothing is
released; (ii) at full-run level: after a fully processed prefix of
context-carrying responses, a response carrying EndOfSequence stops the run
with the Pull requests being exactly those of the prefix, releasing nothing
when its scan is not abandoned; (iii) a run that is never abandoned sends no
Release at all; (iv) a run abandoned (generator closed, or an exception
thrown into it at a yield - both reach the same finally block) inside a
response that follows a nonempty fully processed prefix of context-carrying
responses sends exactly one Release, carrying the context adopted from the
last fully processed response - which differs from the last observed
EnumerationContext token whenever the abandoned response's own context was
already scanned - unless the abandoned response's EndOfSequence child was
scanned before the abandonment point, in which case nothing is released. -/
theorem C3_enumeration_termination :
    (∀ (resp : List EnumChild) (rest : List (List EnumChild))
       (context : Option String) (budget : Option Nat) (acc : List Nat)
       (pulls : List String),
      hasEos resp = true →
      (enumGo resp rest context budget acc pulls).pulls = pulls ∧
      ((scanChildren resp context false budget).2.2.2.1 = false →
        (enumGo resp rest context budget acc pulls).released = Option.none)) ∧
    (∀ (first : List EnumChild) (mid : List (List EnumChild))
       (next : List EnumChild) (rest : List (List EnumChild)) (b : Option Nat)
       (ctx2 : Option String) (b2 : Option Nat) (acc2 : List Nat)
       (pulls2 : List String),
      chainRun (first :: mid) Option.none b [] [] = some (ctx2, b2, acc2, pulls2) →
      hasEos next = true →
      (enumRun first (mid ++ next :: rest) b).pulls = pulls2 ∧
      ((scanChildren next ctx2 false b2).2.2.2.1 = false →
        (enumRun first (mid ++ next :: rest) b).released = Option.none)) ∧
    (∀ (first : List EnumChild) (rest : List (List EnumChild)),
      (enumRun first rest Option.none).released = Option.none) ∧
    (∀ (first : List EnumChild) (mid : List (List EnumChild))
       (next : List EnumChild) (rest : List (List EnumChild)) (b : Option Nat)
       (ctx2 : Option String) (b2 : Option Nat) (acc2 : List Nat)
       (pulls2 : List String) (ys : List Nat) (nctx : Option String)
       (fin : Bool) (b3 : Option Nat),
      chainRun (first :: mid) Option.none b [] [] = some (ctx2, b2, acc2, pulls2) →
      scanChildren next ctx2 false b2 = (ys, nctx, fin, true, b3) →
      (∃ t, ctx2 = some t) ∧
      enumRun first (mid ++ next :: rest) b
        = { yielded := acc2 ++ ys, pulls := pulls2,
            released := if fin then Option.none else ctx2,
            protoError := false, pendingPull := false }) := by
  refine ⟨?_, ?_, ?_, ?_⟩
  · intro resp rest context budget acc pulls heos
    exact enumGo_eos_stops resp rest context budget acc pulls heos
  · intro first mid next rest b ctx2 b2 acc2 pulls2 hchain heos
    have hrun := chainRun_sound (first :: mid) next rest Option.none b [] []
      ctx2 b2 acc2 pulls2 hchain
    simp only [List.cons_append, List.headD_cons, List.tail_cons] at hrun
    have hstops := enumGo_eos_stops next rest ctx2 b2 acc2 pulls2 heos
    unfold enumRun
    rw [hrun]
    exact hstops
  · intro first rest
    exact enumGo_none_released rest first Option.none [] []
  · intro first mid next rest b ctx2 b2 acc2 pulls2 ys nctx fin b3 hchain hscan
    have hrun := chainRun_sound (first :: mid) next rest Option.none b [] []
      ctx2 b2 acc2 pulls2 hchain
    simp only [List.cons_append, List.headD_cons, List.tail_cons] at hrun
    refine ⟨chainRun_cons_ctx first mid Option.none b [] [] ctx2 b2 acc2 pulls2
      hchain, ?_⟩
    unfold enumRun
    rw [hrun]
    exact enumGo_abandoned next rest ctx2 b2 acc2 pulls2 ys nctx fin b3 hscan

/-- C3 witness: a first response adopting context A and yielding one item,
then a Pull response with context B and two items, the consumer abandoning
at the second item overall: the fully processed prefix is the first
response, one Pull (A) is sent, and the Release carries A. -/
theorem C3_enumeration_termination_witness :
    enumRun (mkEnumResp ("A", 1)) [mkEnumResp ("B", 2)] (some 2)
      = { yielded := [1, 2], pulls := ["A"], released := some "A",
          protoError := false, pendingPull := false } := by
  have h := (C3_enumeration_termination.2.2.2 (mkEnumResp ("A", 1)) []
    (mkEnumResp ("B", 2)) [] (some 2) (some "A") (some 1) [1] ["A"] [2]
    (some "B") false (some 0) (by decide) (by decide)).2
  simpa using h

/-! ## C10: missing EnumerationContext -/

/-- C10: when the first response carries no EnumerationContext child, the
generator yields the children of its Items elements and then raises
ProtocolError("EnumerationContext missing from response"); no Pull and no
Release are sent - also when that same response carries EndOfSequence. -/
theorem C10_missing_enumeration_context (first : List EnumChild)
    (rest : List (List EnumChild)) (hctx : hasCtx first = false) :
    enumRun first rest Option.none
      = { yielded := enumItems first, pulls := [], released := Option.none,
          protoError := true, pendingPull := false } := by
  unfold enumRun
  rw [enumGo_noctx first rest Option.none Option.none [] [] (enumItems first)
    (hasEos first) Option.none
    (by rw [scanChildren_none_start, lastCtx_noCtx first Option.none hctx])]
  by_cases h : hasEos first = true <;> simp [h]

/-- C10 witness: a single response of two items plus EndOfSequence but no
context token: both items yielded, ProtocolError raised, nothing released. -/
theorem C10_missing_enumeration_context_witness :
    hasCtx [EnumChild.items [5, 6], EnumChild.eos] = false ∧
    enumRun [EnumChild.items [5, 6], EnumChild.eos] [] Option.none
      = { yielded := [5, 6], pulls := [], released := Option.none,
          protoError := true, pendingPull := false } := by
  refine ⟨by decide, ?_⟩
  have h := C10_missing_enumeration_context [EnumChild.items [5, 6], EnumChild.eos]
    [] (by decide)
  rw [h]
  rfl

/-! ## C2: mustUnderstand attributes on request headers -/

/-- The header produced by build_request with every header value supplied:
To (no attributes), ReplyTo (no attributes, Address child carrying
mustUnderstand="true"), Action and ResourceURI (mustUnderstand="true"),
MessageID (no attributes), SelectorSet, OptionSet (mustUnderstand="true"),
Locale and DataLocale (mustUnderstand="false" and xml:lang), then
OperationTimeout and MaxEnvelopeSize. -/
theorem buildRequest_full (e a mid ru : String)
    (sel opt : List (String × String)) (loc : String) (tmo m : Nat) :
    buildRequest e a mid (some ru) (some sel) (some opt) (some loc)
        (some tmo) Option.none (some m)
      = [⟨wsaTo, [], some e, []⟩,
         ⟨wsaReplyTo, [], Option.none,
           [⟨wsaAddress, [(soapMustUnderstand, "true")],
             some (nsWSAddressing ++ "/role/anonymous"), []⟩]⟩,
         ⟨wsaAction, [(soapMustUnderstand, "true")], some a, []⟩,
         ⟨wsaMessageID, [], some mid, []⟩,
         ⟨wsmanResourceURI, [(soapMustUnderstand, "true")], some ru, []⟩,
         ⟨wsmanSelectorSet, [], Option.none,
           sel.map (fun p => ⟨wsmanSelector, [(attrName, p.1)], some p.2, []⟩)⟩,
         ⟨wsmanOptionSet, [(soapMustUnderstand, "true")], Option.none,
           opt.map (fun p => ⟨wsmanOptionEl, [(attrName, p.1)], some p.2, []⟩)⟩,
         ⟨wsmanLocale, [(soapMustUnderstand, "false"), (xmlLang, loc)],
           Option.none, []⟩,
         ⟨wsmanDataLocale, [(soapMustUnderstand, "false"), (xmlLang, loc)],
           Option.none, []⟩,
         ⟨wsmanOperationTimeout, [], some (secToDuration tmo), []⟩,
         ⟨wsmanMaxEnvelopeSize, [(soapMustUnderstand, "true")],
           some (pyStrNat m), []⟩] := by
  have h1 : setTo [] (some e) = [⟨wsaTo, [], some e, []⟩] := rfl
  have h2 : setReplyTo [⟨wsaTo, [], some e, []⟩]
      (some (nsWSAddressing ++ "/role/anonymous"))
      = [⟨wsaTo, [], some e, []⟩,
         ⟨wsaReplyTo, [], Option.none,
           [⟨wsaAddress, [(soapMustUnderstand, "true")],
             some (nsWSAddressing ++ "/role/anonymous"), []⟩]⟩] := rfl
  have h3 : setAction [⟨wsaTo, [], some e, []⟩,
      ⟨wsaReplyTo, [], Option.none,
        [⟨wsaAddress, [(soapMustUnderstand, "true")],
          some (nsWSAddressing ++ "/role/anonymous"), []⟩]⟩] (some a)
      = [⟨wsaTo, [], some e, []⟩,
         ⟨wsaReplyTo, [], Option.none,
           [⟨wsaAddress, [(soapMustUnderstand, "true")],
             some (nsWSAddressing ++ "/role/anonymous"), []⟩]⟩,
         ⟨wsaAction, [(soapMustUnderstand, "true")], some a, []⟩] := rfl
  have h4 : setMessageId [⟨wsaTo, [], some e, []⟩,
      ⟨wsaReplyTo, [], Option.none,
        [⟨wsaAddress, [(soapMustUnderstand, "true")],
          some (nsWSAddressing ++ "/role/anonymous"), []⟩]⟩,
      ⟨wsaAction, [(soapMustUnderstand, "true")], some a, []⟩] (some mid)
      = [⟨wsaTo, [], some e, []⟩,
         ⟨wsaReplyTo, [], Option.none,
           [⟨wsaAddress, [(soapMustUnderstand, "true")],
             some (nsWSAddressing ++ "/role/anonymous"), []⟩]⟩,
         ⟨wsaAction, [(soapMustUnderstand, "true")], some a, []⟩,
         ⟨wsaMessageID, [], some mid, []⟩] := rfl
  have h5 : setResourceUri [⟨wsaTo, [], some e, []⟩,
      ⟨wsaReplyTo, [], Option.none,
        [⟨wsaAddress, [(soapMustUnderstand, "true")],
          some (nsWSAddressing ++ "/role/anonymous"), []⟩]⟩,
      ⟨wsaAction, [(soapMustUnderstand, "true")], some a, []⟩,
      ⟨wsaMessageID, [], some mid, []⟩] (some ru)
      = [⟨wsaTo, [], some e, []⟩,
         ⟨wsaReplyTo, [], Option.none,
           [⟨wsaAddress, [(soapMustUnderstand, "true")],
             some (nsWSAddressing ++ "/role/anonymous"), []⟩]⟩,
         ⟨wsaAction, [(soapMustUnderstand, "true")], some a, []⟩,
         ⟨wsaMessageID, [], some mid, []⟩,
         ⟨wsmanResourceURI, [(soapMustUnderstand, "true")], some ru, []⟩] := rfl
  have h6 : setSelectors [⟨wsaTo, [], some e, []⟩,
      ⟨wsaReplyTo, [], Option.none,
        [⟨wsaAddress, [(soapMustUnderstand, "true")],
          some (nsWSAddressing ++ "/role/anonymous"), []⟩]⟩,
      ⟨wsaAction, [(soapMustUnderstand, "true")], some a, []⟩,
      ⟨wsaMessageID, [], some mid, []⟩,
      ⟨wsmanResourceURI, [(soapMustUnderstand, "true")], some ru, []⟩]
      (some sel)
      = [⟨wsaTo, [], some e, []⟩,
         ⟨wsaReplyTo, [], Option.none,
           [⟨wsaAddress, [(soapMustUnderstand, "true")],
             some (nsWSAddressing ++ "/role/anonymous"), []⟩]⟩,
         ⟨wsaAction, [(soapMustUnderstand, "true")], some a, []⟩,
         ⟨wsaMessageID, [], some mid, []⟩,
         ⟨wsmanResourceURI, [(soapMustUnderstand, "true")], some ru, []⟩,
         ⟨wsmanSelectorSet, [], Option.none,
           sel.map (fun p => ⟨wsmanSelector, [(attrName, p.1)], some p.2, []⟩)⟩]
      := rfl
  have h7 : setOptions [⟨wsaTo, [], some e, []⟩,
      ⟨wsaReplyTo, [], Option.none,
        [⟨wsaAddress, [(soapMustUnderstand, "true")],
          some (nsWSAddressing ++ "/role/anonymous"), []⟩]⟩,
      ⟨wsaAction, [(soapMustUnderstand, "true")], some a, []⟩,
      ⟨wsaMessageID, [], some mid, []⟩,
      ⟨wsmanResourceURI, [(soapMustUnderstand, "true")], some ru, []⟩,
      ⟨wsmanSelectorSet, [], Option.none,
        sel.map (fun p => ⟨wsmanSelector, [(attrName, p.1)], some p.2, []⟩)⟩]
      (some opt)
      = [⟨wsaTo, [], some e, []⟩,
         ⟨wsaReplyTo, [], Option.none,
           [⟨wsaAddress, [(soapMustUnderstand, "true")],
             some (nsWSAddressing ++ "/role/anonymous"), []⟩]⟩,
         ⟨wsaAction, [(soapMustUnderstand, "true")], some a, []⟩,
         ⟨wsaMessageID, [], some mid, []⟩,
         ⟨wsmanResourceURI, [(soapMustUnderstand, "true")], some ru, []⟩,
         ⟨wsmanSelectorSet, [], Option.none,
           sel.map (fun p => ⟨wsmanSelector, [(attrName, p.1)], some p.2, []⟩)⟩,
         ⟨wsmanOptionSet, [(soapMustUnderstand, "true")], Option.none,
           opt.map (fun p => ⟨wsmanOptionEl, [(attrName, p.1)], some p.2, []⟩)⟩]
      := rfl
  have h8 : setLocale [⟨wsaTo, [], some e, []⟩,
      ⟨wsaReplyTo, [], Option.none,
        [⟨wsaAddress, [(soapMustUnderstand, "true")],
          some (nsWSAddressing ++ "/role/anonymous"), []⟩]⟩,
      ⟨wsaAction, [(soapMustUnderstand, "true")], some a, []⟩,
      ⟨wsaMessageID, [], some mid, []⟩,
      ⟨wsmanResourceURI, [(soapMustUnderstand, "true")], some ru, []⟩,
      ⟨wsmanSelectorSet, [], Option.none,
        sel.map (fun p => ⟨wsmanSelector, [(attrName, p.1)], some p.2, []⟩)⟩,
      ⟨wsmanOptionSet, [(soapMustUnderstand, "true")], Option.none,
        opt.map (fun p => ⟨wsmanOptionEl, [(attrName, p.1)], some p.2, []⟩)⟩]
      (some loc)
      = [⟨wsaTo, [], some e, []⟩,
         ⟨wsaReplyTo, [], Option.none,
           [⟨wsaAddress, [(soapMustUnderstand, "true")],
             some (nsWSAddressing ++ "/role/anonymous"), []⟩]⟩,
         ⟨wsaAction, [(soapMustUnderstand, "true")], some a, []⟩,
         ⟨wsaMessageID, [], some mid, []⟩,
         ⟨wsmanResourceURI, [(soapMustUnderstand, "true")], some ru, []⟩,
         ⟨wsmanSelectorSet, [], Option.none,
           sel.map (fun p => ⟨wsmanSelector, [(attrName, p.1)], some p.2, []⟩)⟩,
         ⟨wsmanOptionSet, [(soapMustUnderstand, "true")], Option.none,
           opt.map (fun p => ⟨wsmanOptionEl, [(attrName, p.1)], some p.2, []⟩)⟩,
         ⟨wsmanLocale, [(soapMustUnderstand, "false"), (xmlLang, loc)],
           Option.none, []⟩] := rfl
  have h9 : setDataLocale [⟨wsaTo, [], some e, []⟩,
      ⟨wsaReplyTo, [], Option.none,
        [⟨wsaAddress, [(soapMustUnderstand, "true")],
          some (nsWSAddressing ++ "/role/anonymous"), []⟩]⟩,
      ⟨wsaAction, [(soapMustUnderstand, "true")], some a, []⟩,
      ⟨wsaMessageID, [], some mid, []⟩,
      ⟨wsmanResourceURI, [(soapMustUnderstand, "true")], some ru, []⟩,
      ⟨wsmanSelectorSet, [], Option.none,
        sel.map (fun p => ⟨wsmanSelector, [(attrName, p.1)], some p.2, []⟩)⟩,
      ⟨wsmanOptionSet, [(soapMustUnderstand, "true")], Option.none,
        opt.map (fun p => ⟨wsmanOptionEl, [(attrName, p.1)], some p.2, []⟩)⟩,
      ⟨wsmanLocale, [(soapMustUnderstand, "false"), (xmlLang, loc)],
        Option.none, []⟩] (some loc)
      = [⟨wsaTo, [], some e, []⟩,
         ⟨wsaReplyTo, [], Option.none,
           [⟨wsaAddress, [(soapMustUnderstand, "true")],
             some (nsWSAddressing ++ "/role/anonymous"), []⟩]⟩,
         ⟨wsaAction, [(soapMustUnderstand, "true")], some a, []⟩,
         ⟨wsaMessageID, [], some mid, []⟩,
         ⟨wsmanResourceURI, [(soapMustUnderstand, "true")], some ru, []⟩,
         ⟨wsmanSelectorSet, [], Option.none,
           sel.map (fun p => ⟨wsmanSelector, [(attrName, p.1)], some p.2, []⟩)⟩,
         ⟨wsmanOptionSet, [(soapMustUnderstand, "true")], Option.none,
           opt.map (fun p => ⟨wsmanOptionEl, [(attrName, p.1)], some p.2, []⟩)⟩,
         ⟨wsmanLocale, [(soapMustUnderstand, "false"), (xmlLang, loc)],
           Option.none, []⟩,
         ⟨wsmanDataLocale, [(soapMustUnderstand, "false"), (xmlLang, loc)],
           Option.none, []⟩] := rfl
  have h10 : setTimeout [⟨wsaTo, [], some e, []⟩,
      ⟨wsaReplyTo, [], Option.none,
        [⟨wsaAddress, [(soapMustUnderstand, "true")],
          some (nsWSAddressing ++ "/role/anonymous"), []⟩]⟩,
      ⟨wsaAction, [(soapMustUnderstand, "true")], some a, []⟩,
      ⟨wsaMessageID, [], some mid, []⟩,
      ⟨wsmanResourceURI, [(soapMustUnderstand, "true")], some ru, []⟩,
      ⟨wsmanSelectorSet, [], Option.none,
        sel.map (fun p => ⟨wsmanSelector, [(attrName, p.1)], some p.2, []⟩)⟩,
      ⟨wsmanOptionSet, [(soapMustUnderstand, "true")], Option.none,
        opt.map (fun p => ⟨wsmanOptionEl, [(attrName, p.1)], some p.2, []⟩)⟩,
      ⟨wsmanLocale, [(soapMustUnderstand, "false"), (xmlLang, loc)],
        Option.none, []⟩,
      ⟨wsmanDataLocale, [(soapMustUnderstand, "false"), (xmlLang, loc)],
        Option.none, []⟩] (some (secToDuration tmo))
      = [⟨wsaTo, [], some e, []⟩,
         ⟨wsaReplyTo, [], Option.none,
           [⟨wsaAddress, [(soapMustUnderstand, "true")],
             some (nsWSAddressing ++ "/role/anonymous"), []⟩]⟩,
         ⟨wsaAction, [(soapMustUnderstand, "true")], some a, []⟩,
         ⟨wsaMessageID, [], some mid, []⟩,
         ⟨wsmanResourceURI, [(soapMustUnderstand, "true")], some ru, []⟩,
         ⟨wsmanSelectorSet, [], Option.none,
           sel.map (fun p => ⟨wsmanSelector, [(attrName, p.1)], some p.2, []⟩)⟩,
         ⟨wsmanOptionSet, [(soapMustUnderstand, "true")], Option.none,
           opt.map (fun p => ⟨wsmanOptionEl, [(attrName, p.1)], some p.2, []⟩)⟩,
         ⟨wsmanLocale, [(soapMustUnderstand, "false"), (xmlLang, loc)],
           Option.none, []⟩,
         ⟨wsmanDataLocale, [(soapMustUnderstand, "false"), (xmlLang, loc)],
           Option.none, []⟩,
         ⟨wsmanOperationTimeout, [], some (secToDuration tmo), []⟩] := rfl
  have h11 : setMaxSize [⟨wsaTo, [], some e, []⟩,
      ⟨wsaReplyTo, [], Option.none,
        [⟨wsaAddress, [(soapMustUnderstand, "true")],
          some (nsWSAddressing ++ "/role/anonymous"), []⟩]⟩,
      ⟨wsaAction, [(soapMustUnderstand, "true")], some a, []⟩,
      ⟨wsaMessageID, [], some mid, []⟩,
      ⟨wsmanResourceURI, [(soapMustUnderstand, "true")], some ru, []⟩,
      ⟨wsmanSelectorSet, [], Option.none,
        sel.map (fun p => ⟨wsmanSelector, [(attrName, p.1)], some p.2, []⟩)⟩,
      ⟨wsmanOptionSet, [(soapMustUnderstand, "true")], Option.none,
        opt.map (fun p => ⟨wsmanOptionEl, [(attrName, p.1)], some p.2, []⟩)⟩,
      ⟨wsmanLocale, [(soapMustUnderstand, "false"), (xmlLang, loc)],
        Option.none, []⟩,
      ⟨wsmanDataLocale, [(soapMustUnderstand, "false"), (xmlLang, loc)],
        Option.none, []⟩,
      ⟨wsmanOperationTimeout, [], some (secToDuration tmo), []⟩] (some m)
      = [⟨wsaTo, [], some e, []⟩,
         ⟨wsaReplyTo, [], Option.none,
           [⟨wsaAddress, [(soapMustUnderstand, "true")],
             some (nsWSAddressing ++ "/role/anonymous"), []⟩]⟩,
         ⟨wsaAction, [(soapMustUnderstand, "true")], some a, []⟩,
         ⟨wsaMessageID, [], some mid, []⟩,
         ⟨wsmanResourceURI, [(soapMustUnderstand, "true")], some ru, []⟩,
         ⟨wsmanSelectorSet, [], Option.none,
           sel.map (fun p => ⟨wsmanSelector, [(attrName, p.1)], some p.2, []⟩)⟩,
         ⟨wsmanOptionSet, [(soapMustUnderstand, "true")], Option.none,
           opt.map (fun p => ⟨wsmanOptionEl, [(attrName, p.1)], some p.2, []⟩)⟩,
         ⟨wsmanLocale, [(soapMustUnderstand, "false"), (xmlLang, loc)],
           Option.none, []⟩,
         ⟨wsmanDataLocale, [(soapMustUnderstand, "false"), (xmlLang, loc)],
           Option.none, []⟩,
         ⟨wsmanOperationTimeout, [], some (secToDuration tmo), []⟩,
         ⟨wsmanMaxEnvelopeSize, [(soapMustUnderstand, "true")],
           some (pyStrNat m), []⟩] := rfl
  simp only [buildRequest]
  rw [h1, h2, h3, h4, h5, h6, h7, h8, h9, h10,
    show pyOrOptNat Option.none (some m) = some m from rfl, h11]

/-- C2 counterexample: on a concrete request built by build_request, the To
element exists but carries no mustUnderstand attribute, and the ReplyTo
element itself carries none (the "true" sits on its Address child); the
claim requires mustUnderstand="true" on both elements. -/
theorem C2_to_no_mustUnderstand_counterexample :
    (headerFind (buildRequest "http://host:5985/wsman"
        "http://schemas.xmlsoap.org/ws/2004/09/transfer/Get" "urn:uuid:123"
        (some "res") (some []) (some []) (some "en-US") (some 60)
        Option.none (some 512)) wsaTo).map
      (fun el => attrGet el soapMustUnderstand) = some Option.none ∧
    (headerFind (buildRequest "http://host:5985/wsman"
        "http://schemas.xmlsoap.org/ws/2004/09/transfer/Get" "urn:uuid:123"
        (some "res") (some []) (some []) (some "en-US") (some 60)
        Option.none (some 512)) wsaReplyTo).map
      (fun el => attrGet el soapMustUnderstand) = some Option.none ∧
    (Option.none : Option String) ≠ some "true" := by
  rw [buildRequest_full "http://host:5985/wsman"
    "http://schemas.xmlsoap.org/ws/2004/09/transfer/Get" "urn:uuid:123"
    "res" [] [] "en-US" 60 512]
  exact ⟨rfl, rfl, by simp⟩

/-- C2 amended: on every request built by build_request (with all header
values supplied), the Action and ResourceURI elements carry
mustUnderstand="true", and so does the Address child of ReplyTo; the To and
ReplyTo elements themselves carry no mustUnderstand attribute; the Locale
and DataLocale elements carry mustUnderstand="false". -/
theorem C2_mustUnderstand_attributes (e a mid ru : String)
    (sel opt : List (String × String)) (loc : String) (tmo m : Nat) :
    (headerFind (buildRequest e a mid (some ru) (some sel) (some opt)
        (some loc) (some tmo) Option.none (some m)) wsaTo).map
      (fun el => attrGet el soapMustUnderstand) = some Option.none ∧
    (headerFind (buildRequest e a mid (some ru) (some sel) (some opt)
        (some loc) (some tmo) Option.none (some m)) wsaAction).map
      (fun el => attrGet el soapMustUnderstand) = some (some "true") ∧
    (headerFind (buildRequest e a mid (some ru) (some sel) (some opt)
        (some loc) (some tmo) Option.none (some m)) wsmanResourceURI).map
      (fun el => attrGet el soapMustUnderstand) = some (some "true") ∧
    (headerFind (buildRequest e a mid (some ru) (some sel) (some opt)
        (some loc) (some tmo) Option.none (some m)) wsaReplyTo).map
      (fun el => attrGet el soapMustUnderstand) = some Option.none ∧
    (headerFind (buildRequest e a mid (some ru) (some sel) (some opt)
        (some loc) (some tmo) Option.none (some m)) wsaReplyTo).map
      (fun el => (el.children.find? (fun x => x.tag == wsaAddress)).map
        (fun ad => attrGet ad soapMustUnderstand))
      = some (some (some "true")) ∧
    (headerFind (buildRequest e a mid (some ru) (some sel) (some opt)
        (some loc) (some tmo) Option.none (some m)) wsmanLocale).map
      (fun el => attrGet el soapMustUnderstand) = some (some "false") ∧
    (headerFind (buildRequest e a mid (some ru) (some sel) (some opt)
        (some loc) (some tmo) Option.none (some m)) wsmanDataLocale).map
      (fun el => attrGet el soapMustUnderstand) = some (some "false") := by
  rw [buildRequest_full e a mid ru sel opt loc tmo m]
  exact ⟨rfl, rfl, rfl, rfl, rfl, rfl, rfl⟩

/-! ## Byte-string occurrence lemmas -/

/-- The empty byte string is a Boolean prefix of everything. -/
theorem nil_isPrefixOf (u : Bytes) : List.isPrefixOf [] u = true := by
  cases u <;> rfl

/-- Unfolding lemma for pySplitAux on a nonempty input. -/
theorem pySplitAux_cons (s0 : Nat) (sr : Bytes) (y : Nat) (ys acc : Bytes) :
    pySplitAux s0 sr (y :: ys) acc =
      if (s0 :: sr).isPrefixOf (y :: ys) then
        acc.reverse :: pySplitAux s0 sr (ys.drop sr.length) []
      else
        pySplitAux s0 sr ys (y :: acc) := by
  rw [pySplitAux.eq_def]

/-- Unfolding lemma for pyRemoveAllAux on a nonempty input. -/
theorem pyRemoveAllAux_cons (p0 : Nat) (pr : Bytes) (y : Nat) (ys : Bytes) :
    pyRemoveAllAux p0 pr (y :: ys) =
      if (p0 :: pr).isPrefixOf (y :: ys) then
        pyRemoveAllAux p0 pr (ys.drop pr.length)
      else
        y :: pyRemoveAllAux p0 pr ys := by
  rw [pyRemoveAllAux.eq_def]

/-- A list is a Boolean prefix of itself followed by anything. -/
theorem isPrefixOf_self_append (p v : Bytes) : p.isPrefixOf (p ++ v) = true := by
  induction p with
  | nil => exact nil_isPrefixOf v
  | cons a p ih => simp [List.isPrefixOf, ih]

/-- A prefix of an append is a prefix of the left part, or contains it. -/
theorem prefix_append_cases {p : Bytes} :
    ∀ {u v : Bytes}, p.isPrefixOf (u ++ v) = true →
    p.isPrefixOf u = true ∨ u.isPrefixOf p = true := by
  induction p with
  | nil => intro u v _; left; exact nil_isPrefixOf u
  | cons a p2 ih =>
    intro u v h
    cases u with
    | nil => right; exact nil_isPrefixOf (a :: p2)
    | cons b u2 =>
      simp only [List.cons_append, List.isPrefixOf, Bool.and_eq_true] at h ⊢
      rcases ih h.2 with h2 | h2
      · exact Or.inl ⟨h.1, h2⟩
      · exact Or.inr ⟨by simpa [BEq.comm] using h.1, h2⟩

/-- If both prefix directions fail at every offset of a region, no occurrence
of the pattern begins inside it, whatever follows. -/
theorem noOcc_of_checks {p u : Bytes}
    (h : ∀ k, k < u.length →
      p.isPrefixOf (u.drop k) = false ∧ (u.drop k).isPrefixOf p = false)
    (v : Bytes) : noOccurrenceFrom p u v := by
  intro k hk hpre
  rcases prefix_append_cases hpre with h2 | h2
  · rw [(h k hk).1] at h2; cases h2
  · rw [(h k hk).2] at h2; cases h2

/-- No occurrence of a pattern with a non-digit head begins inside an
all-digit region. -/
theorem noOcc_digits {hb : Nat} {pr : Bytes} (hnd : hb < 48 ∨ 57 < hb)
    {u : Bytes} (hdig : ∀ b ∈ u, 48 ≤ b ∧ b ≤ 57) (v : Bytes) :
    noOccurrenceFrom (hb :: pr) u v := by
  intro k hk hpre
  rcases List.exists_cons_of_ne_nil
      (by simpa [List.drop_eq_nil_iff_le] using Nat.not_le.mpr hk :
        u.drop k ≠ []) with ⟨b, t, hbt⟩
  rw [hbt] at hpre
  simp only [List.cons_append, List.isPrefixOf, Bool.and_eq_true,
    beq_iff_eq] at hpre
  have hmem : b ∈ u := List.mem_of_mem_drop (by rw [hbt]; simp)
  have := hdig b hmem
  omega

/-- Occurrence-freeness splits over appended regions. -/
theorem noOcc_append {p u w tail : Bytes}
    (hu : noOccurrenceFrom p u (w ++ tail))
    (hw : noOccurrenceFrom p w tail) :
    noOccurrenceFrom p (u ++ w) tail := by
  intro k hk hpre
  rw [List.length_append] at hk
  by_cases hku : k < u.length
  · have hdrop : (u ++ w).drop k = u.drop k ++ w := by
      rw [List.drop_append_eq_append_drop]
      have : k - u.length = 0 := by omega
      rw [this, List.drop_zero]
    rw [hdrop, List.append_assoc] at hpre
    exact hu k hku hpre
  · have hdrop : (u ++ w).drop k = w.drop (k - u.length) := by
      rw [List.drop_append_eq_append_drop]
      have : u.drop k = [] := by
        rw [List.drop_eq_nil_iff_le]
        omega
      rw [this, List.nil_append]
    rw [hdrop] at hpre
    exact hw (k - u.length) (by omega) hpre

/-! ## Python split and replace evaluation lemmas -/

/-- Split walks through a region in which no separator occurrence begins. -/
theorem splitAux_through (s0 : Nat) (sr : Bytes) (u : Bytes) :
    ∀ (rest acc : Bytes), noOccurrenceFrom (s0 :: sr) u rest →
    pySplitAux s0 sr (u ++ rest) acc = pySplitAux s0 sr rest (u.reverse ++ acc) := by
  induction u with
  | nil => intro rest acc _; simp
  | cons y u2 ih =>
    intro rest acc h
    have h0 : ¬ (s0 :: sr).isPrefixOf (y :: (u2 ++ rest)) = true := by
      have := h 0 (by simp)
      simpa using this
    rw [List.cons_append, pySplitAux_cons, if_neg h0]
    rw [ih rest (y :: acc) (fun k hk => by
      have := h (k + 1) (by simpa using Nat.succ_lt_succ hk)
      simpa using this)]
    simp

/-- Split consumes a separator occurrence and emits the accumulated part. -/
theorem splitAux_at (s0 : Nat) (sr rest acc : Bytes) :
    pySplitAux s0 sr ((s0 :: sr) ++ rest) acc
      = acc.reverse :: pySplitAux s0 sr rest [] := by
  rw [List.cons_append, pySplitAux.eq_def]
  have hpre : (s0 :: sr).isPrefixOf (s0 :: (sr ++ rest)) = true := by
    simpa using isPrefixOf_self_append (s0 :: sr) rest
  simp only [hpre, if_true]
  congr 1
  exact congrArg (fun l => pySplitAux s0 sr l []) (List.drop_left sr rest)

/-- Split of a region with no separator occurrence at all. -/
theorem splitAux_no_occ (s0 : Nat) (sr u acc : Bytes)
    (h : noOccurrenceFrom (s0 :: sr) u []) :
    pySplitAux s0 sr u acc = [acc.reverse ++ u] := by
  have := splitAux_through s0 sr u [] acc h
  rw [List.append_nil] at this
  rw [this, pySplitAux.eq_def]
  simp

/-- Replace walks through a region in which no pattern occurrence begins. -/
theorem removeAux_through (p0 : Nat) (pr : Bytes) (u : Bytes) :
    ∀ rest : Bytes, noOccurrenceFrom (p0 :: pr) u rest →
    pyRemoveAllAux p0 pr (u ++ rest) = u ++ pyRemoveAllAux p0 pr rest := by
  induction u with
  | nil => intro rest _; simp
  | cons y u2 ih =>
    intro rest h
    have h0 : ¬ (p0 :: pr).isPrefixOf (y :: (u2 ++ rest)) = true := by
      have := h 0 (by simp)
      simpa using this
    rw [List.cons_append, pyRemoveAllAux_cons, if_neg h0]
    rw [ih rest (fun k hk => by
      have := h (k + 1) (by simpa using Nat.succ_lt_succ hk)
      simpa using this)]
    rw [List.cons_append]

/-- Replace removes a pattern occurrence and continues after it. -/
theorem removeAux_at (p0 : Nat) (pr rest : Bytes) :
    pyRemoveAllAux p0 pr ((p0 :: pr) ++ rest) = pyRemoveAllAux p0 pr rest := by
  rw [List.cons_append, pyRemoveAllAux.eq_def]
  have hpre : (p0 :: pr).isPrefixOf (p0 :: (pr ++ rest)) = true := by
    simpa using isPrefixOf_self_append (p0 :: pr) rest
  simp only [hpre, if_true]
  exact congrArg (pyRemoveAllAux p0 pr) (List.drop_left pr rest)

/-- Replace is the identity on a region with no pattern occurrence. -/
theorem removeAux_no_occ (p0 : Nat) (pr u : Bytes)
    (h : noOccurrenceFrom (p0 :: pr) u []) :
    pyRemoveAllAux p0 pr u = u := by
  have := removeAux_through p0 pr u [] h
  rw [List.append_nil] at this
  rw [this, pyRemoveAllAux.eq_def]
  simp

/-! ## Evaluation of _decrypt_response on encrypt_message bodies -/

/-- bytes.strip() of the metadata part: the leading tab and the trailing CRLF
go, the digits stay. -/
theorem pyStrip_encHeader (D : Bytes) (hne : D ≠ []) (hdig : ∀ b ∈ D, 48 ≤ b ∧ b ≤ 57) :
    pyStripB (hdrFixed ++ D ++ crlfB) = hdrFixed.drop 1 ++ D := by
  have hDws : ∀ b ∈ D, isPyWsB b = false := fun b hb => digit_not_ws (hdig b hb)
  have hrev : D.reverse ≠ [] := by simpa using hne
  obtain ⟨b, t, hbt⟩ := List.exists_cons_of_ne_nil hrev
  have hbD : b ∈ D := by rw [← List.mem_reverse, hbt]; exact List.mem_cons_self b t
  have hbws : isPyWsB b = false := hDws b hbD
  have h1 : (hdrFixed ++ D ++ crlfB).dropWhile isPyWsB = hdrFixed.drop 1 ++ (D ++ crlfB) := by
    rw [List.append_assoc]
    rw [show hdrFixed = 9 :: 67 :: hdrFixed.drop 2 from by decide]
    simp [List.dropWhile_cons, isPyWsB]
  unfold pyStripB
  rw [h1]
  have h2 : (hdrFixed.drop 1 ++ (D ++ crlfB)).reverse
      = 10 :: 13 :: (D.reverse ++ (hdrFixed.drop 1).reverse) := by
    rw [show crlfB = [13, 10] from by decide]
    simp [List.reverse_append]
  rw [h2]
  have h3 : List.dropWhile isPyWsB (10 :: 13 :: (D.reverse ++ (hdrFixed.drop 1).reverse))
      = D.reverse ++ (hdrFixed.drop 1).reverse := by
    rw [List.dropWhile_cons, if_pos (by decide : isPyWsB 10 = true)]
    rw [List.dropWhile_cons, if_pos (by decide : isPyWsB 13 = true)]
    rw [hbt, List.cons_append]
    rw [List.dropWhile_cons, if_neg (by simp [hbws])]
  rw [h3]
  simp [List.reverse_append]

theorem lengthSplit_encHeader (D : Bytes) (hdig : ∀ b ∈ D, 48 ≤ b ∧ b ≤ 57) :
    pySplitB (bstr "Length=") (hdrFixed.drop 1 ++ D) = [lengthPre, D] := by
  rw [show hdrFixed.drop 1 = lengthPre ++ bstr "Length=" from by decide,
      show (bstr "Length=") = 76 :: bstr "ength=" from by decide]
  show pySplitAux 76 (bstr "ength=") ((lengthPre ++ (76 :: bstr "ength=")) ++ D) []
      = [lengthPre, D]
  rw [List.append_assoc]
  rw [splitAux_through 76 (bstr "ength=") lengthPre ((76 :: bstr "ength=") ++ D) []
    (noOcc_of_checks (by decide) _)]
  rw [splitAux_at]
  rw [splitAux_no_occ 76 (bstr "ength=") D []
    (noOcc_digits (Or.inr (by norm_num)) hdig [])]
  simp

theorem isSuffixOf_append_self (t x : Bytes) : t.isSuffixOf (x ++ t) = true := by
  simp [List.isSuffixOf, List.reverse_append, isPrefixOf_self_append]

theorem take_strip_terminator (u : Bytes) :
    (u ++ mimeTerminator).take ((u ++ mimeTerminator).length - mimeTerminator.length) = u := by
  have h : (u ++ mimeTerminator).length - mimeTerminator.length = u.length := by
    rw [List.length_append]; omega
  rw [h, List.take_left]

set_option maxRecDepth 8192 in
theorem split_encBody (D R : Bytes) (hD : ∀ b ∈ D, 48 ≤ b ∧ b ≤ 57)
    (hR : noOccurrenceFrom mimeSep R mimeTerminator) :
    pySplitB mimeSep
      (mimeSep ++ hdrFixed ++ D ++ crlfB ++ mimeSep ++ octetStreamLine ++ R ++ mimeTerminator)
      = [[], hdrFixed ++ D ++ crlfB, (octetStreamLine ++ R) ++ mimeTerminator] := by
  have hsep : mimeSep = 45 :: bstr "-Encrypted Boundary\r\n" := by decide
  have hA : noOccurrenceFrom mimeSep (hdrFixed ++ D ++ crlfB)
      (mimeSep ++ ((octetStreamLine ++ R) ++ mimeTerminator)) := by
    refine noOcc_append ?_ ?_
    · refine noOcc_append ?_ ?_
      · exact noOcc_of_checks (by decide) _
      · rw [hsep]
        exact noOcc_digits (Or.inl (by norm_num)) hD _
    · exact noOcc_of_checks (by decide) _
  have hB : noOccurrenceFrom mimeSep ((octetStreamLine ++ R) ++ mimeTerminator) [] := by
    refine noOcc_append ?_ ?_
    · refine noOcc_append ?_ ?_
      · exact noOcc_of_checks (by decide) _
      · rw [List.append_nil]; exact hR
    · exact noOcc_of_checks (by decide) _
  have hbody : mimeSep ++ hdrFixed ++ D ++ crlfB ++ mimeSep ++ octetStreamLine ++ R ++ mimeTerminator
      = mimeSep ++ ((hdrFixed ++ D ++ crlfB)
          ++ (mimeSep ++ ((octetStreamLine ++ R) ++ mimeTerminator))) := by
    simp [List.append_assoc]
  rw [hbody]
  rw [hsep] at hA hB ⊢
  show pySplitAux 45 (bstr "-Encrypted Boundary\r\n") _ [] = _
  rw [splitAux_at]
  rw [splitAux_through 45 (bstr "-Encrypted Boundary\r\n") (hdrFixed ++ D ++ crlfB) _ [] hA]
  rw [splitAux_at]
  rw [splitAux_no_occ 45 (bstr "-Encrypted Boundary\r\n") _ _ hB]
  simp

theorem decryptResponse_encBody (ctx : SpnegoContext) (n : Nat) (R : Bytes)
    (hR : noOccurrenceFrom mimeSep R mimeTerminator) :
    decryptResponse ctx (mimeSep ++ hdrFixed ++ natDecimalBytes n ++ crlfB
        ++ mimeSep ++ octetStreamLine ++ R ++ mimeTerminator)
      = match decryptMessage ctx (pyRemoveAll octetStreamLine (octetStreamLine ++ R)) with
        | Except.error e => Except.error e
        | Except.ok dm =>
          if (dm.length : Int) ≠ Int.ofNat n then
            Except.error "Encrypted response length does not match expected size"
          else Except.ok dm := by
  have hD := natDecimalBytes_digit n
  have hne : natDecimalBytes n ≠ [] := by
    unfold natDecimalBytes
    simp [natDigits_ne_nil n]
  unfold decryptResponse
  rw [split_encBody (natDecimalBytes n) R hD hR]
  have hfil : ([[], hdrFixed ++ natDecimalBytes n ++ crlfB,
      (octetStreamLine ++ R) ++ mimeTerminator].filter (fun p => !p.isEmpty))
      = [hdrFixed ++ natDecimalBytes n ++ crlfB,
          (octetStreamLine ++ R) ++ mimeTerminator] := by
    rw [show hdrFixed = 9 :: hdrFixed.drop 1 from by decide,
        show octetStreamLine = 9 :: bstr "Content-Type: application/octet-stream\r\n"
          from by decide]
    rfl
  rw [hfil]
  rw [decryptResponseGo]
  rw [pyStrip_encHeader _ hne hD, lengthSplit_encHeader _ hD]
  simp only [List.get?_cons_succ, List.get?_cons_zero]
  rw [pyIntB_decimal]
  rw [if_pos (isSuffixOf_append_self mimeTerminator (octetStreamLine ++ R))]
  rw [take_strip_terminator (octetStreamLine ++ R)]
  cases hdm : decryptMessage ctx (pyRemoveAll octetStreamLine (octetStreamLine ++ R)) with
  | error e => simp
  | ok dm =>
    by_cases hc : (dm.length : Int) ≠ Int.ofNat n
    · simp only [hc, if_true, if_pos hc]
    · rw [not_ne_iff] at hc
      simp [hc, decryptResponseGo]

theorem encryptMessage_body (ctx : SpnegoContext) (msg : Bytes) :
    (encryptMessage ctx msg).1
      = mimeSep ++ hdrFixed ++ natDecimalBytes msg.length ++ crlfB
        ++ mimeSep ++ octetStreamLine
        ++ (packLE32 (ctx.wrapHeader msg).length ++ ctx.wrapHeader msg ++ ctx.wrapData msg)
        ++ mimeTerminator := by
  simp [encryptMessage, encryptMessagePayload, mimeSep, hdrFixed, crlfB, List.append_assoc]

theorem unpackLE32_packLE32 (n : Nat) (h : n < 2147483648) :
    unpackLE32Signed (n % 256) (n / 256 % 256) (n / 65536 % 256) (n / 16777216 % 256)
      = (n : Int) := by
  have hu : n % 256 % 256 + 256 * (n / 256 % 256 % 256) + 65536 * (n / 65536 % 256 % 256)
      + 16777216 * (n / 16777216 % 256 % 256) = n := by omega
  simp only [unpackLE32Signed]
  rw [hu, if_pos h]

theorem decryptMessage_wrapped (ctx : SpnegoContext) (H C : Bytes)
    (hlen : H.length < 2147483648) :
    decryptMessage ctx (packLE32 H.length ++ H ++ C)
      = Except.ok (ctx.unwrapWinrm H C) := by
  have hshape : packLE32 H.length ++ H ++ C
      = H.length % 256 :: H.length / 256 % 256 :: H.length / 65536 % 256
        :: H.length / 16777216 % 256 :: (H ++ C) := by
    simp [packLE32]
  rw [hshape]
  simp only [decryptMessage]
  rw [unpackLE32_packLE32 H.length hlen]
  have hcond : ¬ ((H.length : Int) < 0 ∨
      (((H.length % 256 :: H.length / 256 % 256 :: H.length / 65536 % 256
        :: H.length / 16777216 % 256 :: (H ++ C)).length : Int) < 4 + (H.length : Int))) := by
    simp only [List.length_cons, List.length_append]
    push_cast
    omega
  rw [if_neg hcond]
  have htn : ((H.length : Int)).toNat = H.length := Int.toNat_ofNat H.length
  rw [htn, List.take_left, List.drop_left]

theorem removeAll_marked (R : Bytes) (h2 : noOccurrenceFrom octetStreamLine R []) :
    pyRemoveAll octetStreamLine (octetStreamLine ++ R) = R := by
  have hoct : octetStreamLine = 9 :: bstr "Content-Type: application/octet-stream\r\n" := by
    decide
  rw [hoct] at h2 ⊢
  show pyRemoveAllAux 9 (bstr "Content-Type: application/octet-stream\r\n") _ = R
  rw [removeAux_at]
  exact removeAux_no_occ _ _ R h2

/-- C1 (amended): for every plaintext P and context, the multipart body built
by encrypt_message contains the four little-endian length bytes immediately
after the octet-stream content-type line and ends with the closing boundary;
and, when the context's unwrap inverts its wrap, the wrapped header fits in a
signed 32-bit length, and neither the boundary line nor the octet-stream line
occurs inside the encrypted segment (length prefix, header, data), passing the
body and its Content-Type to decrypt_response_content returns exactly P. -/
theorem C1_encryption_roundtrip (ctx : SpnegoContext) (P : Bytes)
    (hinv : ctx.unwrapWinrm (ctx.wrapHeader P) (ctx.wrapData P) = P)
    (hlen : (ctx.wrapHeader P).length < 2147483648)
    (hsep : noOccurrenceFrom mimeSep
        (packLE32 (ctx.wrapHeader P).length ++ ctx.wrapHeader P ++ ctx.wrapData P)
        mimeTerminator)
    (hmark : noOccurrenceFrom octetStreamLine
        (packLE32 (ctx.wrapHeader P).length ++ ctx.wrapHeader P ++ ctx.wrapData P) []) :
    (∀ (ctx2 : SpnegoContext) (Q : Bytes), ∃ pre post,
        (encryptMessage ctx2 Q).1
          = pre ++ (octetStreamLine ++ packLE32 (ctx2.wrapHeader Q).length) ++ post) ∧
    (∀ (ctx2 : SpnegoContext) (Q : Bytes), ∃ pre,
        (encryptMessage ctx2 Q).1 = pre ++ mimeTerminator) ∧
    decryptResponseContent ctx (encryptMessage ctx P).1 (encryptMessage ctx P).2.1
      = Except.ok P := by
  refine ⟨?_, ?_, ?_⟩
  · intro ctx2 Q
    refine ⟨mimeSep ++ hdrFixed ++ natDecimalBytes Q.length ++ crlfB ++ mimeSep,
      ctx2.wrapHeader Q ++ ctx2.wrapData Q ++ mimeTerminator, ?_⟩
    rw [encryptMessage_body]
    simp [List.append_assoc]
  · intro ctx2 Q
    exact ⟨_, encryptMessage_body ctx2 Q⟩
  · have hct : (encryptMessage ctx P).2.1 = encContentType := rfl
    rw [hct]
    unfold decryptResponseContent
    rw [if_pos (by decide :
      bytesContains (bstr ("protocol=\x22" ++ encProtocol ++ "\x22"))
        (bstr encContentType) = true)]
    rw [encryptMessage_body]
    rw [decryptResponse_encBody ctx P.length _ hsep]
    rw [removeAll_marked _ hmark]
    rw [decryptMessage_wrapped ctx _ _ hlen]
    rw [hinv]
    simp [Int.ofNat_eq_natCast]

/-- C1 counterexample: a context whose unwrap is the inverse of its wrap
(empty header, identity data), applied to the plaintext equal to the
octet-stream content-type line, round-trips to an EncryptionError instead of
the plaintext: _decrypt_response's replace() also deletes the marker bytes
that came from the plaintext. -/
theorem C1_marker_collision_counterexample :
    ((SpnegoContext.mk (fun _ => []) (fun m => m) (fun _ d => d)).unwrapWinrm
        ((SpnegoContext.mk (fun _ => []) (fun m => m) (fun _ d => d)).wrapHeader octetStreamLine)
        ((SpnegoContext.mk (fun _ => []) (fun m => m) (fun _ d => d)).wrapData octetStreamLine)
      = octetStreamLine) ∧
    decryptResponseContent (SpnegoContext.mk (fun _ => []) (fun m => m) (fun _ d => d))
        (encryptMessage (SpnegoContext.mk (fun _ => []) (fun m => m) (fun _ d => d))
          octetStreamLine).1
        (encryptMessage (SpnegoContext.mk (fun _ => []) (fun m => m) (fun _ d => d))
          octetStreamLine).2.1
      = Except.error "Encrypted response length does not match expected size" := by
  refine ⟨rfl, ?_⟩
  have hct : (encryptMessage (SpnegoContext.mk (fun _ => []) (fun m => m) (fun _ d => d))
      octetStreamLine).2.1 = encContentType := rfl
  rw [hct]
  unfold decryptResponseContent
  rw [if_pos (by decide :
    bytesContains (bstr ("protocol=\x22" ++ encProtocol ++ "\x22"))
      (bstr encContentType) = true)]
  rw [encryptMessage_body]
  have hR : (packLE32 ((SpnegoContext.mk (fun _ => [])
        (fun m => m) (fun _ d => d)).wrapHeader octetStreamLine).length
      ++ (SpnegoContext.mk (fun _ => []) (fun m => m) (fun _ d => d)).wrapHeader octetStreamLine
      ++ (SpnegoContext.mk (fun _ => []) (fun m => m) (fun _ d => d)).wrapData octetStreamLine)
      = [0, 0, 0, 0] ++ octetStreamLine := by
    decide
  rw [hR]
  rw [decryptResponse_encBody _ octetStreamLine.length ([0, 0, 0, 0] ++ octetStreamLine)
    (by
      simp only [noOccurrenceFrom]
      decide)]
  have hrm : pyRemoveAll octetStreamLine (octetStreamLine ++ ([0, 0, 0, 0] ++ octetStreamLine))
      = [0, 0, 0, 0] := by
    have hoct : octetStreamLine = 9 :: bstr "Content-Type: application/octet-stream\r\n" := by
      decide
    rw [hoct]
    show pyRemoveAllAux 9 (bstr "Content-Type: application/octet-stream\r\n") _ = [0, 0, 0, 0]
    rw [removeAux_at]
    rw [removeAux_through 9 (bstr "Content-Type: application/octet-stream\r\n") [0, 0, 0, 0]
      (9 :: bstr "Content-Type: application/octet-stream\r\n")
      (by simp only [noOccurrenceFrom]; decide)]
    rw [show (9 :: bstr "Content-Type: application/octet-stream\r\n")
        = (9 :: bstr "Content-Type: application/octet-stream\r\n") ++ [] from by simp]
    rw [removeAux_at]
    simp [pyRemoveAllAux]
  rw [hrm]
  have hdm : decryptMessage (SpnegoContext.mk (fun _ => []) (fun m => m) (fun _ d => d))
      [0, 0, 0, 0] = Except.ok [] := rfl
  rw [hdm]
  have hne : ((([] : Bytes).length : Int) ≠ Int.ofNat octetStreamLine.length) := by decide
  simp [hne]
  decide

theorem C1_encryption_roundtrip_witness :
    decryptResponseContent (SpnegoContext.mk (fun _ => [0]) (fun m => m) (fun _ d => d))
        (encryptMessage (SpnegoContext.mk (fun _ => [0]) (fun m => m) (fun _ d => d))
          (bstr "<a/>")).1
        (encryptMessage (SpnegoContext.mk (fun _ => [0]) (fun m => m) (fun _ d => d))
          (bstr "<a/>")).2.1
      = Except.ok (bstr "<a/>") :=
  (C1_encryption_roundtrip
    (SpnegoContext.mk (fun _ => [0]) (fun m => m) (fun _ d => d)) (bstr "<a/>")
    rfl (by decide)
    (by simp only [noOccurrenceFrom]; decide)
    (by simp only [noOccurrenceFrom]; decide)).2.2
